import Mathlib

/-!
# tinyDB (Oxide) — verification of the core storage and expression layer

A shallow embedding of the repository's core modules:

* `number_kind.rs`  — `NumberKind`, physical widths, field decoding
* `data_types.rs`   — `DataType`, `compute_fixed_size`, `decode`, `decipher_type`
* `rows.rs`         — `Row`, `encode` / `decode`, record sizes
* `byte_row_collection.rs` — the in-memory `ByteRowCollection` backing
* `expression.rs`   — the expression tree and the pure-value folder `to_pure`
* `token_slice.rs`  — `TokenSlice` and its scanning combinators

Machine integers are embedded as `Nat` / `Int` with explicit ranges; byte
buffers are `List Nat` (each entry `< 256`); floating-point payloads are
carried as their big-endian bit patterns (`Nat`), which is exact for the
byte-level encode/decode properties studied here.  Operations that panic
in Rust (out-of-bounds indexing) are embedded as `Option`-returning
functions where `none` marks the panic.

Several supporting modules of the repository (`typed_values.rs`,
`codec.rs`, `table_columns.rs`, `row_metadata.rs`, `field_metadata.rs`,
`errors.rs`, `tokens.rs`, `parameter.rs`, `byte_code_compiler.rs`) are not
part of the sources under study; their definitions are modelled from the
specification (wire formats of §3/§4.A, error kinds of §7, token shape of
§4.G) and from the concrete byte vectors in the unit tests of `rows.rs`.
Each such definition carries a `Modelled from the spec` note.
-/

namespace TinyDB

/-! ## Byte-level helpers (big-endian codecs)

Modelled from the spec: `codec.rs` / `byte_code_compiler.rs` are not in the
sources; §4.A fixes "all multi-byte integers and floats are big-endian". -/

/-- Big-endian bytes of `n`, exactly `w` bytes wide (`n` is taken mod `2^(8*w)`,
as Rust's `to_be_bytes` does for a machine integer of that width). -/
def natToBe : Nat → Nat → List Nat
  | 0, _ => []
  | w + 1, n => natToBe w (n / 256) ++ [n % 256]

/-- Big-endian interpretation of a byte list. -/
def beToNat (bs : List Nat) : Nat := bs.foldl (fun acc b => acc * 256 + b) 0

/-- `readBytes buf off n` is the sub-buffer `buf[off .. off+n)` (shorter if the
buffer ends first). -/
def readBytes (buf : List Nat) (off n : Nat) : List Nat := (buf.drop off).take n

/-- Rust's `Vec::resize(c, 0)`: truncate or right-pad with zeros to length `c`. -/
def resizeList (xs : List Nat) (c : Nat) : List Nat :=
  if xs.length ≤ c then xs ++ List.replicate (c - xs.length) 0 else xs.take c

/-- Two's-complement big-endian bytes of an integer at width `w`. -/
def intToBe (w : Nat) (i : Int) : List Nat := natToBe w (i % (2 ^ (8 * w))).toNat

/-- Signed (two's-complement) interpretation of a `w`-byte big-endian buffer. -/
def beToInt (w : Nat) (bs : List Nat) : Int :=
  let u := beToNat bs
  if u < 2 ^ (8 * w - 1) then (u : Int) else (u : Int) - 2 ^ (8 * w)

theorem natToBe_length (w n : Nat) : (natToBe w n).length = w := by
  induction w generalizing n with
  | zero => rfl
  | succ w ih => simp [natToBe, ih]

theorem intToBe_length (w : Nat) (i : Int) : (intToBe w i).length = w :=
  natToBe_length w _

theorem beToNat_append_one (bs : List Nat) (b : Nat) :
    beToNat (bs ++ [b]) = beToNat bs * 256 + b := by
  simp [beToNat, List.foldl_append]

theorem beToNat_natToBe (w n : Nat) (h : n < 2 ^ (8 * w)) :
    beToNat (natToBe w n) = n := by
  induction w generalizing n with
  | zero =>
    simp [natToBe, beToNat]
    omega
  | succ w ih =>
    have hlt : n / 256 < 2 ^ (8 * w) := by
      have h256 : (2 : Nat) ^ (8 * (w + 1)) = 2 ^ (8 * w) * 256 := by
        rw [show 8 * (w + 1) = 8 * w + 8 by ring, pow_add]
        norm_num
      rw [h256] at h
      omega
    rw [natToBe, beToNat_append_one, ih _ hlt]
    omega

theorem readBytes_exact (pre mid post : List Nat) (n : Nat)
    (hn : mid.length = n) :
    readBytes (pre ++ (mid ++ post)) pre.length n = mid := by
  subst hn
  simp [readBytes, List.drop_left, List.take_append]

theorem resizeList_eq_self (xs : List Nat) (c : Nat) (h : xs.length = c) :
    resizeList xs c = xs := by
  simp [resizeList, h]

theorem resizeList_length (xs : List Nat) (c : Nat) :
    (resizeList xs c).length = c := by
  unfold resizeList
  by_cases h : xs.length ≤ c
  · simp only [h, if_true, List.length_append, List.length_replicate]
    omega
  · simp only [h, if_false, List.length_take]
    omega

theorem resizeList_pad (xs : List Nat) (c : Nat) (h : xs.length ≤ c) :
    resizeList xs c = xs ++ List.replicate (c - xs.length) 0 := by
  simp [resizeList, h]

theorem beToInt_intToBe (w : Nat) (i : Int) (hw : 0 < w)
    (hlo : -(2 ^ (8 * w - 1)) ≤ i) (hhi : i < 2 ^ (8 * w - 1)) :
    beToInt w (intToBe w i) = i := by
  have hMH : (2 : Int) ^ (8 * w) = 2 * 2 ^ (8 * w - 1) := by
    have h : (2 : Int) ^ ((8 * w - 1) + 1) = 2 * 2 ^ (8 * w - 1) := by
      rw [pow_succ]; ring
    rwa [Nat.sub_add_cancel (by omega : 1 ≤ 8 * w)] at h
  have hMHn : (2 : Nat) ^ (8 * w) = 2 * 2 ^ (8 * w - 1) := by
    have h : (2 : Nat) ^ ((8 * w - 1) + 1) = 2 * 2 ^ (8 * w - 1) := by
      rw [pow_succ]; ring
    rwa [Nat.sub_add_cancel (by omega : 1 ≤ 8 * w)] at h
  have hHpos : (0 : Int) < 2 ^ (8 * w - 1) := by positivity
  have hcn : (((2 : Nat) ^ (8 * w) : Nat) : Int) = (2 : Int) ^ (8 * w) := by
    push_cast; ring
  have hcn1 : (((2 : Nat) ^ (8 * w - 1) : Nat) : Int) = (2 : Int) ^ (8 * w - 1) := by
    push_cast; ring
  have hmod : i % (2 ^ (8 * w) : Int) = if 0 ≤ i then i else i + 2 ^ (8 * w) := by
    split <;> rename_i hs
    · exact Int.emod_eq_of_lt hs (by omega)
    · have h2 : (i + 2 ^ (8 * w)) % (2 ^ (8 * w) : Int) = i % 2 ^ (8 * w) := by
        have h3 := Int.add_mul_emod_self_left (a := i) (b := (2 ^ (8 * w) : Int)) (c := 1)
        simp only [mul_one] at h3
        exact h3
      rw [← h2, Int.emod_eq_of_lt (by omega) (by omega)]
  have hltN : (i % (2 ^ (8 * w) : Int)).toNat < 2 ^ (8 * w) := by
    rw [hmod]
    split <;> omega
  simp only [beToInt, intToBe]
  rw [beToNat_natToBe _ _ hltN, hmod]
  by_cases hs : 0 ≤ i
  · simp only [hs, if_true]
    have hlt' : i.toNat < 2 ^ (8 * w - 1) := by omega
    rw [if_pos hlt']
    omega
  · simp only [hs, if_false]
    have hge : ¬ (i + 2 ^ (8 * w)).toNat < 2 ^ (8 * w - 1) := by omega
    rw [if_neg hge]
    omega

/-! ## Number kinds and numeric values

`NumberKind` is from `number_kind.rs`.  `Numbers` (`numbers.rs` is not in the
sources) is modelled from the spec (§3) and from the kinds that
`number_kind.rs` encodes/decodes; float payloads are carried as their
big-endian bit patterns, which is exact at the byte level. -/

inductive NumberKind
  | AckKind | RowIdKind | RowsAffectedKind | DateKind
  | F32Kind | F64Kind
  | I8Kind | I16Kind | I32Kind | I64Kind | I128Kind
  | U8Kind | U16Kind | U32Kind | U64Kind | U128Kind
  | UUIDKind | NaNKind
  deriving DecidableEq, Repr

inductive Numbers
  | Ack
  | RowId (n : Nat)
  | RowsAffected (i : Int)
  | DateValue (i : Int)
  | F32Value (bits : Nat)
  | F64Value (bits : Nat)
  | I8Value (i : Int)
  | I16Value (i : Int)
  | I32Value (i : Int)
  | I64Value (i : Int)
  | I128Value (i : Int)
  | U8Value (n : Nat)
  | U16Value (n : Nat)
  | U32Value (n : Nat)
  | U64Value (n : Nat)
  | U128Value (n : Nat)
  | UUIDValue (n : Nat)
  | NaNValue
  deriving DecidableEq, Repr

/-- Modelled from the spec: `platform.rs` is not in the sources; platform
operations are opaque named entities for the purposes of the core. -/
structure PlatformOps where
  name : String
  deriving DecidableEq, Repr

/-- Modelled from the spec (§4.G): tokens carry `(text, start, end, line,
column)` and a variant tag (`tokens.rs` is not in the sources). -/
inductive Token
  | atom (text : String) (start stop line_number column_number : Nat)
  | backticks (text : String) (start stop line_number column_number : Nat)
  | doubleQuoted (text : String) (start stop line_number column_number : Nat)
  | singleQuoted (text : String) (start stop line_number column_number : Nat)
  | numeric (text : String) (start stop line_number column_number : Nat)
  | operator (text : String) (start stop line_number column_number : Nat)
  deriving DecidableEq, Repr

/-- Modelled from the spec: `ImportOps` of `expression.rs`. -/
inductive ImportOps
  | Everything (pkg : String)
  | Selection (pkg : String) (items : List String)
  deriving DecidableEq, Repr

inductive TableOptions
  | Journaling
  deriving DecidableEq, Repr

/-! ## The mutually recursive expression/type/value universe

Mirrors `data_types.rs` (`DataType`), `expression.rs` (`Expression`,
`Conditions`, `Directives`, `DatabaseOps`, `Mutations`, `Queryables`,
`CreationEntity`, `MutateTarget`), `rows.rs` (`Row`) and the modelled
supporting modules: `Parameter` (`parameter.rs`), `TypedValue`
(`typed_values.rs`), `TableColumn` (`table_columns.rs`), `Structures`
(`structures.rs`), `Errors`/`TypeMismatchErrors` (`errors.rs`),
`ModelRowCollection`/`Dataframe` (`model_row_collection.rs`,
`dataframe.rs`).  String contents inside `TypedValue.StringValue`,
`ASCII` and `Binary` are carried as byte lists, matching the wire format
the spec fixes. -/

set_option maxHeartbeats 3200000 in
mutual

inductive DataType
  | ArrayType (size : Nat)
  | ASCIIType (size : Nat)
  | BinaryType (size : Nat)
  | BooleanType
  | EnumType (params : List Parameter)
  | ErrorType
  | FunctionType (params : List Parameter) (returns : DataType)
  | Indeterminate
  | NumberType (kind : NumberKind)
  | PlatformOpsType (op : PlatformOps)
  | StringType (size : Nat)
  | StructureType (params : List Parameter)
  | TableType (params : List Parameter) (capacity : Nat)
  | TupleType (types : List DataType)
  | VaryingType (types : List DataType)

inductive Parameter
  | mk (name : String) (data_type : DataType) (default_value : TypedValue)

inductive TableColumn
  | mk (name : String) (data_type : DataType) (offset : Nat)
      (max_physical_size : Nat)

inductive TypedValue
  | ArrayValue (items : List TypedValue)
  | ASCII (chars : List Nat)
  | Binary (bytes : List Nat)
  | Boolean (b : Bool)
  | ErrorValue (err : Errors)
  | Function (params : List Parameter) (body : Expression) (returns : DataType)
  | Null
  | Number (n : Numbers)
  | PlatformOp (op : PlatformOps)
  | StringValue (bytes : List Nat)
  | Structured (s : Structures)
  | TableValue (df : Dataframe)
  | TupleValue (items : List TypedValue)
  | Undefined

inductive Structures
  | Hard (values : List (String × TypedValue))
  | Soft (values : List (String × TypedValue))
  | Firm (row : Row) (columns : List TableColumn)

inductive Row
  | mk (id : Nat) (columns : List TableColumn) (values : List TypedValue)

inductive ModelRowCollection
  | mk (columns : List TableColumn) (rows : List Row)

inductive Dataframe
  | Model (mrc : ModelRowCollection)

inductive TypeMismatchErrors
  | ArgumentsMismatched (expected actual : Nat)
  | ConstantValueExpected (code : String)
  | StringExpected (got : String)
  | UnrecognizedTypeName (name : String)
  | UnsupportedType (expected actual : DataType)

inductive Errors
  | Empty
  | Exact (message : String)
  | IllegalOperator (token : Token)
  | SyntaxFailure (code : String)
  | TypeMismatch (err : TypeMismatchErrors)

inductive Conditions
  | And (a b : Expression)
  | Between (a b c : Expression)
  | Betwixt (a b c : Expression)
  | Contains (a b : Expression)
  | Equal (a b : Expression)
  | False
  | GreaterOrEqual (a b : Expression)
  | GreaterThan (a b : Expression)
  | LessOrEqual (a b : Expression)
  | LessThan (a b : Expression)
  | Like (a b : Expression)
  | Not (a : Expression)
  | NotEqual (a b : Expression)
  | Or (a b : Expression)
  | True

inductive Directives
  | MustAck (a : Expression)
  | MustDie (a : Expression)
  | MustIgnoreAck (a : Expression)
  | MustNotAck (a : Expression)

inductive DatabaseOps
  | Queryable (q : Queryables)
  | Mutation (m : Mutations)

inductive CreationEntity
  | IndexEntity (columns : List Expression)
  | TableEntity (columns : List Parameter) (from_src : Option Expression)
      (options : List TableOptions)
  | TableFnEntity (fx : Expression)

inductive MutateTarget
  | IndexTarget (path : Expression)
  | TableTarget (path : Expression)

inductive Mutations
  | Append (path source : Expression)
  | Create (path : Expression) (entity : CreationEntity)
  | Declare (entity : CreationEntity)
  | Delete (path : Expression) (condition : Option Conditions)
      (limit : Option Expression)
  | Drop (target : MutateTarget)
  | IntoNs (a b : Expression)
  | Overwrite (path source : Expression) (condition : Option Conditions)
      (limit : Option Expression)
  | Truncate (path : Expression) (limit : Option Expression)
  | Undelete (path : Expression) (condition : Option Conditions)
      (limit : Option Expression)
  | Update (path source : Expression) (condition : Option Conditions)
      (limit : Option Expression)

inductive Queryables
  | Limit (from_src limit : Expression)
  | Select (fields : List Expression) (from_src : Option Expression)
      (condition : Option Conditions) (group_by : Option (List Expression))
      (having : Option Expression) (order_by : Option (List Expression))
      (limit : Option Expression)
  | Where (from_src : Expression) (condition : Conditions)

inductive Expression
  | ArrayExpression (items : List Expression)
  | AsValue (name : String) (expr : Expression)
  | BitwiseAnd (a b : Expression)
  | BitwiseOr (a b : Expression)
  | BitwiseShiftLeft (a b : Expression)
  | BitwiseShiftRight (a b : Expression)
  | BitwiseXor (a b : Expression)
  | CodeBlock (ops : List Expression)
  | Condition (cond : Conditions)
  | DatabaseOp (op : DatabaseOps)
  | Directive (d : Directives)
  | Divide (a b : Expression)
  | ElementAt (a b : Expression)
  | Extraction (a b : Expression)
  | ExtractPostfix (a b : Expression)
  | Factorial (a : Expression)
  | Feature (title : Expression) (scenarios : List Expression)
  | FnExpression (params : List Parameter) (body : Option Expression)
      (returns : DataType)
  | ForEach (name : String) (src : Expression) (ops : Expression)
  | From (a : Expression)
  | FunctionCall (fx : Expression) (args : List Expression)
  | HTTP (method url : Expression) (body headers multipart : Option Expression)
  | If (condition a : Expression) (b : Option Expression)
  | Import (ops : List ImportOps)
  | Include (path : Expression)
  | JSONExpression (items : List (String × Expression))
  | Literal (value : TypedValue)
  | Minus (a b : Expression)
  | Module (name : String) (ops : List Expression)
  | Modulo (a b : Expression)
  | Multiply (a b : Expression)
  | Neg (a : Expression)
  | Ns (a : Expression)
  | Parameters (params : List Parameter)
  | Plus (a b : Expression)
  | PlusPlus (a b : Expression)
  | Pow (a b : Expression)
  | Range (a b : Expression)
  | Return (items : List Expression)
  | Scenario (title : Expression) (verifications : List Expression)
  | SetVariable (name : String) (value : Expression)
  | SetVariables (name value : Expression)
  | TupleExpression (args : List Expression)
  | Variable (name : String)
  | Via (expr : Expression)
  | While (condition code : Expression)

end

/-! ## Accessors for the single-constructor types -/

def Parameter.name : Parameter → String
  | .mk n _ _ => n

def Parameter.data_type : Parameter → DataType
  | .mk _ dt _ => dt

def Parameter.default_value : Parameter → TypedValue
  | .mk _ _ v => v

def TableColumn.name : TableColumn → String
  | .mk n _ _ _ => n

def TableColumn.data_type : TableColumn → DataType
  | .mk _ dt _ _ => dt

def TableColumn.offset : TableColumn → Nat
  | .mk _ _ o _ => o

def TableColumn.max_physical_size : TableColumn → Nat
  | .mk _ _ _ s => s

def Row.id : Row → Nat
  | .mk i _ _ => i

def Row.columns : Row → List TableColumn
  | .mk _ cs _ => cs

def Row.values : Row → List TypedValue
  | .mk _ _ vs => vs

/-! ## `NumberKind`: physical widths and field decoding (`number_kind.rs`) -/

namespace NumberKind

/-- `NumberKind::compute_max_physical_size` (number_kind.rs:37-48). -/
def compute_max_physical_size : NumberKind → Nat
  | .AckKind | .RowIdKind | .RowsAffectedKind => 2
  | .I8Kind | .U8Kind => 1
  | .I16Kind | .U16Kind => 2
  | .F32Kind | .I32Kind | .U32Kind => 4
  | .DateKind | .F64Kind | .I64Kind | .U64Kind => 8
  | .I128Kind | .U128Kind | .UUIDKind => 16
  | .NaNKind => 0

/-- The width a `NumberType` occupies inline.  `data_types.rs` calls this
`compute_fixed_size`; the table is `compute_max_physical_size` from
`number_kind.rs` (the spec gives the same table for both, §4.A). -/
def compute_fixed_size (k : NumberKind) : Nat := k.compute_max_physical_size

end NumberKind

/-- `ByteCodeCompiler::decode_u8xN`: read `w` bytes big-endian at `offset`;
`none` marks the Rust out-of-bounds panic.  (Modelled from the spec:
`byte_code_compiler.rs` is not in the sources; §4.A fixes big-endian.) -/
def decodeBeNat (w : Nat) (buf : List Nat) (off : Nat) : Option Nat :=
  if off + w ≤ buf.length then some (beToNat (readBytes buf off w)) else none

/-- Signed-width variant of `decodeBeNat` (`iN::from_be_bytes`). -/
def decodeBeInt (w : Nat) (buf : List Nat) (off : Nat) : Option Int :=
  if off + w ≤ buf.length then some (beToInt w (readBytes buf off w)) else none

/-- `NumberKind::decode` (number_kind.rs:51-72).  `AckKind` and `NaNKind`
read no bytes.  `I8Kind` decodes via `b.to_i8().unwrap()`, which panics on
bytes ≥ 128 (`none` here). -/
def NumberKind.decode : NumberKind → List Nat → Nat → Option Numbers
  | .AckKind, _, _ => some .Ack
  | .RowIdKind, buf, off => (decodeBeNat 8 buf off).map .RowId
  | .RowsAffectedKind, buf, off => (decodeBeInt 8 buf off).map .RowsAffected
  | .DateKind, buf, off => (decodeBeInt 8 buf off).map .DateValue
  | .F32Kind, buf, off => (decodeBeNat 4 buf off).map .F32Value
  | .F64Kind, buf, off => (decodeBeNat 8 buf off).map .F64Value
  | .I8Kind, buf, off =>
      (buf.get? off).bind (fun b =>
        if b < 128 then some (.I8Value (b : Int)) else none)
  | .I16Kind, buf, off => (decodeBeInt 2 buf off).map .I16Value
  | .I32Kind, buf, off => (decodeBeInt 4 buf off).map .I32Value
  | .I64Kind, buf, off => (decodeBeInt 8 buf off).map .I64Value
  | .I128Kind, buf, off => (decodeBeInt 16 buf off).map .I128Value
  | .U8Kind, buf, off => (buf.get? off).map .U8Value
  | .U16Kind, buf, off => (decodeBeNat 2 buf off).map .U16Value
  | .U32Kind, buf, off => (decodeBeNat 4 buf off).map .U32Value
  | .U64Kind, buf, off => (decodeBeNat 8 buf off).map .U64Value
  | .U128Kind, buf, off => (decodeBeNat 16 buf off).map .U128Value
  | .UUIDKind, buf, off => (decodeBeNat 16 buf off).map .UUIDValue
  | .NaNKind, _, _ => some .NaNValue

namespace Numbers

/-- The kind a numeric value belongs to (`numbers.rs` is not in the
sources; the pairing is pinned by `NumberKind::decode`). -/
def kind : Numbers → NumberKind
  | .Ack => .AckKind
  | .RowId _ => .RowIdKind
  | .RowsAffected _ => .RowsAffectedKind
  | .DateValue _ => .DateKind
  | .F32Value _ => .F32Kind
  | .F64Value _ => .F64Kind
  | .I8Value _ => .I8Kind
  | .I16Value _ => .I16Kind
  | .I32Value _ => .I32Kind
  | .I64Value _ => .I64Kind
  | .I128Value _ => .I128Kind
  | .U8Value _ => .U8Kind
  | .U16Value _ => .U16Kind
  | .U32Value _ => .U32Kind
  | .U64Value _ => .U64Kind
  | .U128Value _ => .U128Kind
  | .UUIDValue _ => .UUIDKind
  | .NaNValue => .NaNKind

/-- Modelled from the spec: big-endian fixed-width encoding of a numeric
value (§4.A tie-breaks); the inverse of `NumberKind::decode`.  `Ack` and
`NaN` carry no payload bytes. -/
def encode : Numbers → List Nat
  | .Ack => []
  | .RowId n => natToBe 8 n
  | .RowsAffected i => intToBe 8 i
  | .DateValue i => intToBe 8 i
  | .F32Value bits => natToBe 4 bits
  | .F64Value bits => natToBe 8 bits
  | .I8Value i => intToBe 1 i
  | .I16Value i => intToBe 2 i
  | .I32Value i => intToBe 4 i
  | .I64Value i => intToBe 8 i
  | .I128Value i => intToBe 16 i
  | .U8Value n => natToBe 1 n
  | .U16Value n => natToBe 2 n
  | .U32Value n => natToBe 4 n
  | .U64Value n => natToBe 8 n
  | .U128Value n => natToBe 16 n
  | .UUIDValue n => natToBe 16 n
  | .NaNValue => []

/-- The payload is within its machine range (and, for `I8Value`, within
the range `b.to_i8().unwrap()` can reproduce without panicking). -/
def wf : Numbers → Prop
  | .Ack => True
  | .RowId n => n < 2 ^ 64
  | .RowsAffected i => -(2 ^ 63) ≤ i ∧ i < 2 ^ 63
  | .DateValue i => -(2 ^ 63) ≤ i ∧ i < 2 ^ 63
  | .F32Value bits => bits < 2 ^ 32
  | .F64Value bits => bits < 2 ^ 64
  | .I8Value i => 0 ≤ i ∧ i < 128
  | .I16Value i => -(2 ^ 15) ≤ i ∧ i < 2 ^ 15
  | .I32Value i => -(2 ^ 31) ≤ i ∧ i < 2 ^ 31
  | .I64Value i => -(2 ^ 63) ≤ i ∧ i < 2 ^ 63
  | .I128Value i => -(2 ^ 127) ≤ i ∧ i < 2 ^ 127
  | .U8Value n => n < 2 ^ 8
  | .U16Value n => n < 2 ^ 16
  | .U32Value n => n < 2 ^ 32
  | .U64Value n => n < 2 ^ 64
  | .U128Value n => n < 2 ^ 128
  | .UUIDValue n => n < 2 ^ 128
  | .NaNValue => True

/-- Modelled from the spec: `Numbers::to_usize`, used by `decipher_type`
to read a size argument; integral payloads clamp at zero. -/
def to_usize : Numbers → Nat
  | .Ack => 0
  | .RowId n => n
  | .RowsAffected i => i.toNat
  | .DateValue i => i.toNat
  | .F32Value _ => 0
  | .F64Value _ => 0
  | .I8Value i => i.toNat
  | .I16Value i => i.toNat
  | .I32Value i => i.toNat
  | .I64Value i => i.toNat
  | .I128Value i => i.toNat
  | .U8Value n => n
  | .U16Value n => n
  | .U32Value n => n
  | .U64Value n => n
  | .U128Value n => n
  | .UUIDValue n => n
  | .NaNValue => 0

end Numbers

/-! ## `DataType::compute_fixed_size` (data_types.rs:296-324)

Note on `ASCIIType`/`StringType`: the source match is

```
size => *size + size.to_be_bytes().len(),
0 => PTR_LEN
```

whose first arm is an irrefutable binding, so the `0 => PTR_LEN` arm is
unreachable and the width is always `size + 8` (`size.to_be_bytes()` of a
`usize` is 8 bytes); at `size = 0` this coincides numerically with
`PTR_LEN = 8`.  `ArrayType`/`BinaryType` use the bare `size`. -/

mutual

def DataType.compute_fixed_size : DataType → Nat
  | .ArrayType size => size + 1
  | .ASCIIType size => (size + 8) + 1
  | .BinaryType size => size + 1
  | .BooleanType => 1 + 1
  | .EnumType _ => 2 + 1
  | .ErrorType => 256 + 1
  | .FunctionType columns _ => columns.length * 8 + 1
  | .Indeterminate => 8 + 1
  | .NumberType nk => nk.compute_fixed_size + 1
  | .PlatformOpsType _ => 4 + 1
  | .StringType size => (size + 8) + 1
  | .StructureType columns => columns.length * 8 + 1
  | .TableType columns _ => columns.length * 8 + 1
  | .TupleType types => sumFixedSize types + 1
  | .VaryingType dts => maxFixedSize dts + 1

/-- `types.iter().map(|t| t.compute_fixed_size()).sum()` -/
def sumFixedSize : List DataType → Nat
  | [] => 0
  | t :: ts => t.compute_fixed_size + sumFixedSize ts

/-- `dts.iter().map(|t| t.compute_fixed_size()).max().unwrap_or(0)` -/
def maxFixedSize : List DataType → Nat
  | [] => 0
  | t :: ts => max t.compute_fixed_size (maxFixedSize ts)

end

/-- Rust `Vec::resize(c, pad)` for arbitrary element types. -/
def resizeWith {α : Type} (xs : List α) (c : Nat) (pad : α) : List α :=
  if xs.length ≤ c then xs ++ List.replicate (c - xs.length) pad else xs.take c

/-! ## Row and field metadata

Modelled from the spec (§3) and the test vectors of `rows.rs`
(`row_metadata.rs` / `field_metadata.rs` are not in the sources): the
`is_allocated` / `is_active` flag is the top bit of the metadata byte
(`0b1000_0000` in every test vector), `is_external` the next bit. -/

structure RowMetadata where
  is_allocated : Bool
  deriving DecidableEq, Repr

def RowMetadata.new (is_allocated : Bool) : RowMetadata := ⟨is_allocated⟩

def RowMetadata.encode (m : RowMetadata) : Nat :=
  if m.is_allocated then 128 else 0

def RowMetadata.decode (b : Nat) : RowMetadata := ⟨b.testBit 7⟩

/-- `RowMetadata::from_bytes(buffer, offset)`.  Total here; the only call
site (`Row::decode`) guards non-emptiness, so the Rust index panic is
unreachable. -/
def RowMetadata.from_bytes (buffer : List Nat) (offset : Nat) : RowMetadata :=
  RowMetadata.decode (buffer.getD offset 0)

structure FieldMetadata where
  is_active : Bool
  is_external : Bool
  deriving DecidableEq, Repr

def FieldMetadata.new (is_active : Bool) : FieldMetadata := ⟨is_active, false⟩

def FieldMetadata.encode (m : FieldMetadata) : Nat :=
  (if m.is_active then 128 else 0) + (if m.is_external then 64 else 0)

def FieldMetadata.decode (b : Nat) : FieldMetadata := ⟨b.testBit 7, b.testBit 6⟩

/-! ## Row-id codec

Modelled from the spec: `codec.rs` is not in the sources; §3 fixes
`bytes 1..9: row id (big-endian u64)`, confirmed by the `rows.rs` test
vectors. -/

def Codec.encode_row_id (id : Nat) : List Nat := natToBe 8 id

/-- `codec::decode_row_id(buffer, offset)`; `none` marks the Rust panic on
a buffer shorter than `offset + 8`. -/
def Codec.decode_row_id (buffer : List Nat) (offset : Nat) : Option Nat :=
  decodeBeNat 8 buffer offset

/-! ## `TypedValue` codec

Modelled from the spec: `typed_values.rs` is not in the sources.  §4.A
fixes the scalar wire formats (big-endian numbers; strings length-prefixed
with the byte width of a `usize`, then raw bytes) — confirmed byte-for-byte
by the `rows.rs` test vectors.  The composite variants (arrays, binaries,
structs, tables, …) encode through machinery in the missing file; their
bytes are irrelevant to every property studied here because
`DataType::decode` (data_types.rs:179-192, in the sources) ignores the
buffer for those types and returns a fresh empty value. -/

def TypedValue.encode : TypedValue → List Nat
  | .Boolean b => [if b then 1 else 0]
  | .Number n => n.encode
  | .StringValue bs => natToBe 8 bs.length ++ bs
  | _ => []

/-- `ByteCodeCompiler::decode_string(buffer, offset, max)`: reads the
8-byte big-endian length prefix, then that many bytes; `none` marks the
Rust out-of-bounds panic.  (Modelled from the spec, §4.A tie-breaks; the
declared max is passed by the callers but the length prefix drives the
read.) -/
def ByteCodeCompiler.decode_string (buffer : List Nat) (offset : Nat)
    (_max_size : Nat) : Option (List Nat) :=
  (decodeBeNat 8 buffer offset).bind (fun len =>
    if offset + 8 + len ≤ buffer.length then
      some (readBytes buffer (offset + 8) len)
    else none)

/-- Rendering of a byte string for error payloads. -/
def stringOfBytes (bs : List Nat) : String :=
  String.mk (bs.map (fun b => Char.ofNat b))

/-- Modelled from the spec: `ByteCodeCompiler::decode_value`, the
tag-driven fallback decoder of the missing `byte_code_compiler.rs`
(§4.A: "preferring type-directed decoding over tag-driven decoding").
No property studied here reaches it; it is represented as a decoder that
recovers no information. -/
def ByteCodeCompiler.decode_value (_ : List Nat) : Option TypedValue :=
  some .Undefined

/-- `HardStructure::from_parameters` (modelled from the spec: a hard
structure holds one field per parameter, initialized to its default). -/
def HardStructure.from_parameters (params : List Parameter) :
    List (String × TypedValue) :=
  params.map (fun p => (p.name, p.default_value))

/-- `Row::overhead` (rows.rs:204): `1 + size_of::<usize>()` = 9. -/
def Row.overhead : Nat := 1 + 8

/-- Modelled from the spec: `TableColumn::from_parameters` /
`from_columns` of the missing `table_columns.rs`.  §3: "Columns carry
precomputed `offset` and `max_physical_size`"; offsets start at the row
overhead and step by each column's fixed size (test vectors: 9, 26, 43). -/
def TableColumn.from_parameters_aux : List Parameter → Nat → List TableColumn
  | [], _ => []
  | p :: ps, off =>
      ⟨p.name, p.data_type, off, p.data_type.compute_fixed_size⟩ ::
        TableColumn.from_parameters_aux ps (off + p.data_type.compute_fixed_size)

def TableColumn.from_parameters (params : List Parameter) : List TableColumn :=
  TableColumn.from_parameters_aux params Row.overhead

/-- `ModelRowCollection::from_parameters` (modelled: a fresh, empty
in-memory table with the given columns). -/
def ModelRowCollection.from_parameters (params : List Parameter) :
    ModelRowCollection :=
  ⟨TableColumn.from_parameters params, []⟩

/-- `DataType::decode` (data_types.rs:179-192): type-directed decoding of a
field payload.  `none` marks a Rust panic (out-of-bounds read).  Note that
`ArrayType`/`BinaryType`/`StructureType`/`TableType` ignore the buffer and
return fresh empty values, and the remaining variants fall through to the
tag-driven `ByteCodeCompiler::decode_value`. -/
def DataType.decode (dt : DataType) (buffer : List Nat) (offset : Nat) :
    Option TypedValue :=
  match dt with
  | .ArrayType _ => some (.ArrayValue [])
  | .BinaryType _ => some (.Binary [])
  | .BooleanType => (buffer.get? offset).map (fun b => .Boolean (b == 1))
  | .ErrorType =>
      (ByteCodeCompiler.decode_string buffer offset 255).map
        (fun s => .ErrorValue (.Exact (stringOfBytes s)))
  | .NumberType kind => (kind.decode buffer offset).map .Number
  | .PlatformOpsType pf => some (.PlatformOp pf)
  | .StringType size =>
      (ByteCodeCompiler.decode_string buffer offset size).map .StringValue
  | .StructureType params =>
      some (.Structured (.Hard (HardStructure.from_parameters params)))
  | .TableType columns _ =>
      some (.TableValue (.Model (ModelRowCollection.from_parameters columns)))
  | _ => ByteCodeCompiler.decode_value (buffer.drop offset)

/-- `TypedValue::decode(data_type, buffer, offset)` delegates to the
type-directed decoder (modelled from the spec, §4.A). -/
def TypedValue.decode (data_type : DataType) (buffer : List Nat)
    (offset : Nat) : Option TypedValue :=
  data_type.decode buffer offset

/-! ## `Row`: record layout (`rows.rs`) -/

/-- `Row::compute_record_size` (rows.rs:143-145). -/
def Row.compute_record_size (columns : List TableColumn) : Nat :=
  Row.overhead + (columns.map (·.max_physical_size)).sum

def Row.get_record_size (r : Row) : Nat := Row.compute_record_size r.columns

/-- `Row::empty` (rows.rs:77-79). -/
def Row.empty (columns : List TableColumn) : Row :=
  ⟨0, columns, columns.map (fun _ => .Null)⟩

/-- `Row::encode_value` (rows.rs:163-173): metadata byte, payload, then
`resize(capacity, 0)` — right-pad with zeros, or truncate when the payload
overflows the slot. -/
def Row.encode_value (value : TypedValue) (metadata : FieldMetadata)
    (capacity : Nat) : List Nat :=
  resizeList (metadata.encode :: value.encode) capacity

/-- `Row::encode` (rows.rs:148-161): row-metadata byte (allocated), 8-byte
row id, then each field at its column's width, resized to the record
size. -/
def Row.encode (r : Row) : List Nat :=
  let capacity := Row.compute_record_size r.columns
  resizeList
    (RowMetadata.encode (RowMetadata.new true) ::
      (Codec.encode_row_id r.id ++
        ((r.values.zip r.columns).map (fun vc =>
          Row.encode_value vc.1 (FieldMetadata.new true)
            vc.2.max_physical_size)).flatten))
    capacity

/-- `Row::decode_value` (rows.rs:59-64): `none` marks the Rust panic when
`buffer[offset]` is out of bounds. -/
def Row.decode_value (data_type : DataType) (buffer : List Nat)
    (offset : Nat) : Option TypedValue :=
  (buffer.get? offset).bind (fun b =>
    if (FieldMetadata.decode b).is_active then
      TypedValue.decode data_type buffer (offset + 1)
    else some .Null)

/-- `Row::decode` (rows.rs:46-57): empty buffer ↦ unallocated empty row;
otherwise metadata byte, row id, then each column's slot at its
precomputed offset.  `none` marks a Rust panic (out-of-bounds read). -/
def Row.decode (buffer : List Nat) (columns : List TableColumn) :
    Option (Row × RowMetadata) :=
  if buffer.length = 0 then some (Row.empty columns, RowMetadata.new false)
  else
    (Codec.decode_row_id buffer 1).bind (fun id =>
      (columns.mapM (fun t => Row.decode_value t.data_type buffer t.offset)).map
        (fun values => (⟨id, columns, values⟩, RowMetadata.from_bytes buffer 0)))

/-- `Field::decode(data_type, buffer, offset).value` (modelled from the
spec: `fields.rs` is not in the sources; a field decodes its metadata byte
then, if active, the type-directed payload — the same shape as
`Row::decode_value`). -/
def Field.decode (data_type : DataType) (buffer : List Nat) (offset : Nat) :
    Option TypedValue :=
  Row.decode_value data_type buffer offset

/-! ## `ByteRowCollection`: the in-memory backing (`byte_row_collection.rs`)

Operations that index out of bounds in Rust return `none` here.  Mutating
operations return the new collection (plus the `usize` the source returns
in its `Ok`). -/

structure ByteRowCollection where
  columns : List TableColumn
  row_data : List (List Nat)
  record_size : Nat
  watermark : Nat

namespace ByteRowCollection

/-- `ByteRowCollection::new` (byte_row_collection.rs:60-67). -/
def new (columns : List TableColumn) (rows : List (List Nat)) :
    ByteRowCollection :=
  ⟨columns, rows, Row.compute_record_size columns, rows.length⟩

/-- `len()` returns `Ok(self.watermark)` (byte_row_collection.rs:78). -/
def len (c : ByteRowCollection) : Nat := c.watermark

def get_columns (c : ByteRowCollection) : List TableColumn := c.columns

def get_record_size (c : ByteRowCollection) : Nat := c.record_size

/-- `overwrite` (byte_row_collection.rs:81-93): grow `row_data` with empty
slots up to `id`, store the encoded record, bump the watermark to `id + 1`
when needed, return `Ok(1)`. -/
def overwrite (c : ByteRowCollection) (id : Nat) (row : Row) :
    ByteRowCollection × Nat :=
  let data :=
    if c.row_data.length ≤ id then
      resizeWith c.row_data (id + 1) ([] : List Nat)
    else c.row_data
  let data := data.set id row.encode
  let wm := if c.watermark ≤ id then id + 1 else c.watermark
  (⟨c.columns, data, c.record_size, wm⟩, 1)

/-- `overwrite_metadata` (byte_row_collection.rs:96-99):
`self.row_data[id][0] = metadata.encode()` — panics (`none`) when `id` is
out of bounds or the slot is an empty vector. -/
def overwrite_metadata (c : ByteRowCollection) (id : Nat)
    (metadata : RowMetadata) : Option (ByteRowCollection × Nat) :=
  (c.row_data.get? id).bind (fun buf =>
    (buf.get? 0).map (fun _ =>
      (⟨c.columns, c.row_data.set id (buf.set 0 metadata.encode),
        c.record_size, c.watermark⟩, 1)))

/-- `read` (byte_row_collection.rs:102-104): decode the slot at `id`;
panics (`none`) when `id` is out of bounds. -/
def read (c : ByteRowCollection) (id : Nat) : Option (Row × RowMetadata) :=
  (c.row_data.get? id).bind (fun buf => Row.decode buf c.columns)

/-- `read_field` (byte_row_collection.rs:107-112): slice out one field's
slot and decode it; panics (`none`) on any out-of-bounds index. -/
def read_field (c : ByteRowCollection) (id column_id : Nat) :
    Option TypedValue :=
  (c.columns.get? column_id).bind (fun column =>
    (c.row_data.get? id).bind (fun row =>
      if column.offset + column.max_physical_size ≤ row.length then
        Field.decode column.data_type
          (readBytes row column.offset column.max_physical_size) 0
      else none))

/-- `read_range` (byte_row_collection.rs:115-121): decode every slot in
`lo..hi`, keeping only allocated rows.  Rust slicing panics (`none`) when
the range is ill-formed or reaches past the end. -/
def read_range (c : ByteRowCollection) (lo hi : Nat) : Option (List Row) :=
  if lo ≤ hi ∧ hi ≤ c.row_data.length then
    (((c.row_data.drop lo).take (hi - lo)).mapM
        (fun b => Row.decode b c.columns)).map
      (fun pairs =>
        pairs.filterMap (fun rm =>
          if rm.2.is_allocated then some rm.1 else none))
  else none

/-- `resize` (byte_row_collection.rs:124-128): `Vec::resize(new_size, vec![])`
and reset the watermark. -/
def resize (c : ByteRowCollection) (new_size : Nat) : ByteRowCollection :=
  ⟨c.columns, resizeWith c.row_data new_size ([] : List Nat), c.record_size,
    new_size⟩

/-- Modelled from the spec (§4.D): `delete(id)` clears `is_allocated`. -/
def delete (c : ByteRowCollection) (id : Nat) :
    Option (ByteRowCollection × Nat) :=
  c.overwrite_metadata id (RowMetadata.new false)

/-- Modelled from the spec (§4.D): `undelete(id)` sets `is_allocated`. -/
def undelete (c : ByteRowCollection) (id : Nat) :
    Option (ByteRowCollection × Nat) :=
  c.overwrite_metadata id (RowMetadata.new true)

/-- Modelled from the spec (§4.D): "`append` is `overwrite(len(), row)`". -/
def append (c : ByteRowCollection) (row : Row) : ByteRowCollection × Nat :=
  c.overwrite c.len row

end ByteRowCollection

/-! ## Well-formedness and the scalar codec round-trip -/

/-- The value conforms to the declared column type and fits its slot:
these are the (type, value) pairs for which the codec of the sources is
faithful.  Composite types are excluded because `DataType::decode`
discards their payload (data_types.rs:181-190); `RowId`/`RowsAffected`
numbers are excluded because their declared slot (2 bytes) is smaller
than what `NumberKind::decode` reads (8 bytes, number_kind.rs:54-55). -/
def WellFormedValue : DataType → TypedValue → Prop
  | .BooleanType, .Boolean _ => True
  | .NumberType k, .Number m =>
      m.kind = k ∧ m.wf ∧ k ≠ .RowIdKind ∧ k ≠ .RowsAffectedKind
  | .StringType n, .StringValue bs =>
      bs.length ≤ n ∧ bs.length < 2 ^ 64 ∧ ∀ b ∈ bs, b < 256
  | _, _ => False

/-- The columns carry the precomputed offsets and widths (§3: "Columns
carry precomputed `offset` and `max_physical_size`"), starting at `off`. -/
def ColumnsCanonicalFrom : Nat → List TableColumn → Prop
  | _, [] => True
  | off, c :: rest =>
      c.offset = off ∧ c.max_physical_size = c.data_type.compute_fixed_size ∧
        ColumnsCanonicalFrom (off + c.max_physical_size) rest

/-- A row built over the schema: its columns are the schema's, its id fits
a `u64`, and each value conforms to its column's type. -/
def Row.WellFormed (columns : List TableColumn) (r : Row) : Prop :=
  r.columns = columns ∧ r.id < 2 ^ 64 ∧
    List.Forall₂ (fun c v => WellFormedValue (TableColumn.data_type c) v)
      columns r.values

theorem get?_append_cons (pre : List Nat) (b : Nat) (post : List Nat) :
    (pre ++ (b :: post)).get? pre.length = some b := by
  rw [List.get?_eq_getElem?, List.getElem?_append_right (le_refl _)]
  simp

theorem decodeBeNat_exact (w : Nat) (pre mid post : List Nat)
    (h : mid.length = w) :
    decodeBeNat w (pre ++ (mid ++ post)) pre.length = some (beToNat mid) := by
  unfold decodeBeNat
  have hle : pre.length + w ≤ (pre ++ (mid ++ post)).length := by
    simp [h.symm]
  rw [if_pos hle, readBytes_exact pre mid post w h]

theorem decodeBeInt_exact (w : Nat) (pre mid post : List Nat)
    (h : mid.length = w) :
    decodeBeInt w (pre ++ (mid ++ post)) pre.length = some (beToInt w mid) := by
  unfold decodeBeInt
  have hle : pre.length + w ≤ (pre ++ (mid ++ post)).length := by
    simp [h.symm]
  rw [if_pos hle, readBytes_exact pre mid post w h]

/-- Kind-directed decoding inverts the numeric encoding on well-formed
payloads, wherever the encoding sits in the buffer. -/
theorem NumberKind.decode_encode (m : Numbers) (h : m.wf)
    (pre post : List Nat) :
    NumberKind.decode m.kind (pre ++ (m.encode ++ post)) pre.length =
      some m := by
  cases m with
  | Ack => rfl
  | RowId n =>
    simp only [Numbers.kind, Numbers.encode, NumberKind.decode]
    rw [decodeBeNat_exact 8 pre _ post (natToBe_length 8 n)]
    simp [beToNat_natToBe 8 n h]
  | RowsAffected i =>
    simp only [Numbers.kind, Numbers.encode, NumberKind.decode]
    rw [decodeBeInt_exact 8 pre _ post (intToBe_length 8 i)]
    simp [beToInt_intToBe 8 i (by norm_num) h.1 h.2]
  | DateValue i =>
    simp only [Numbers.kind, Numbers.encode, NumberKind.decode]
    rw [decodeBeInt_exact 8 pre _ post (intToBe_length 8 i)]
    simp [beToInt_intToBe 8 i (by norm_num) h.1 h.2]
  | F32Value bits =>
    simp only [Numbers.kind, Numbers.encode, NumberKind.decode]
    rw [decodeBeNat_exact 4 pre _ post (natToBe_length 4 _)]
    simp [beToNat_natToBe 4 bits h]
  | F64Value bits =>
    simp only [Numbers.kind, Numbers.encode, NumberKind.decode]
    rw [decodeBeNat_exact 8 pre _ post (natToBe_length 8 _)]
    simp [beToNat_natToBe 8 bits h]
  | I8Value i =>
    obtain ⟨hnn, hub⟩ := h
    simp only [Numbers.kind, Numbers.encode, NumberKind.decode]
    have hone : ∀ n : Nat, natToBe 1 n = [n % 256] := fun n => rfl
    have h1 : i % ((2 : Int) ^ (8 * 1)) = i := by
      apply Int.emod_eq_of_lt hnn
      norm_num
      omega
    have henc : intToBe 1 i = [i.toNat] := by
      unfold intToBe
      rw [h1, hone]
      have : i.toNat < 128 := by omega
      congr 1
      omega
    rw [henc, List.singleton_append, get?_append_cons pre _ post]
    have hlt : i.toNat < 128 := by omega
    simp [hlt, Int.toNat_of_nonneg hnn]
  | I16Value i =>
    simp only [Numbers.kind, Numbers.encode, NumberKind.decode]
    rw [decodeBeInt_exact 2 pre _ post (intToBe_length 2 i)]
    simp [beToInt_intToBe 2 i (by norm_num) h.1 h.2]
  | I32Value i =>
    simp only [Numbers.kind, Numbers.encode, NumberKind.decode]
    rw [decodeBeInt_exact 4 pre _ post (intToBe_length 4 i)]
    simp [beToInt_intToBe 4 i (by norm_num) h.1 h.2]
  | I64Value i =>
    simp only [Numbers.kind, Numbers.encode, NumberKind.decode]
    rw [decodeBeInt_exact 8 pre _ post (intToBe_length 8 i)]
    simp [beToInt_intToBe 8 i (by norm_num) h.1 h.2]
  | I128Value i =>
    simp only [Numbers.kind, Numbers.encode, NumberKind.decode]
    rw [decodeBeInt_exact 16 pre _ post (intToBe_length 16 i)]
    simp [beToInt_intToBe 16 i (by norm_num) h.1 h.2]
  | U8Value n =>
    have hn : n < 256 := h
    simp only [Numbers.kind, Numbers.encode, NumberKind.decode]
    have hone : ∀ m : Nat, natToBe 1 m = [m % 256] := fun m => rfl
    have henc : natToBe 1 n = [n] := by
      rw [hone]
      congr 1
      omega
    rw [henc, List.singleton_append, get?_append_cons pre _ post]
    rfl
  | U16Value n =>
    simp only [Numbers.kind, Numbers.encode, NumberKind.decode]
    rw [decodeBeNat_exact 2 pre _ post (natToBe_length 2 _)]
    simp [beToNat_natToBe 2 n h]
  | U32Value n =>
    simp only [Numbers.kind, Numbers.encode, NumberKind.decode]
    rw [decodeBeNat_exact 4 pre _ post (natToBe_length 4 _)]
    simp [beToNat_natToBe 4 n h]
  | U64Value n =>
    simp only [Numbers.kind, Numbers.encode, NumberKind.decode]
    rw [decodeBeNat_exact 8 pre _ post (natToBe_length 8 _)]
    simp [beToNat_natToBe 8 n h]
  | U128Value n =>
    simp only [Numbers.kind, Numbers.encode, NumberKind.decode]
    rw [decodeBeNat_exact 16 pre _ post (natToBe_length 16 _)]
    simp [beToNat_natToBe 16 n h]
  | UUIDValue n =>
    simp only [Numbers.kind, Numbers.encode, NumberKind.decode]
    rw [decodeBeNat_exact 16 pre _ post (natToBe_length 16 _)]
    simp [beToNat_natToBe 16 n h]
  | NaNValue => rfl

/-- The encoded payload of a well-formed value fits its column slot
(metadata byte included). -/
theorem encode_fits (dt : DataType) (v : TypedValue)
    (h : WellFormedValue dt v) :
    (TypedValue.encode v).length + 1 ≤ dt.compute_fixed_size := by
  cases dt <;> cases v <;> try exact (h : False).elim
  case BooleanType.Boolean b =>
    simp [TypedValue.encode, DataType.compute_fixed_size]
  case NumberType.Number k m =>
    obtain ⟨hk, hwf, hr1, hr2⟩ := h
    subst hk
    cases m with
    | RowId n => exact absurd rfl hr1
    | RowsAffected i => exact absurd rfl hr2
    | _ =>
      simp [TypedValue.encode, Numbers.kind, DataType.compute_fixed_size,
        NumberKind.compute_fixed_size, NumberKind.compute_max_physical_size,
        natToBe_length, intToBe_length, Numbers.encode]
  case StringType.StringValue n bs =>
    obtain ⟨hlen, -, -⟩ := h
    simp [TypedValue.encode, DataType.compute_fixed_size, natToBe_length]
    omega

/-- Type-directed decoding inverts the value encoding on well-formed
(type, value) pairs, wherever the encoding sits in the buffer. -/
theorem DataType.decode_encode_value (dt : DataType) (v : TypedValue)
    (h : WellFormedValue dt v) (pre post : List Nat) :
    DataType.decode dt (pre ++ (TypedValue.encode v ++ post)) pre.length =
      some v := by
  cases dt <;> cases v <;> try exact (h : False).elim
  case BooleanType.Boolean b =>
    cases b <;>
      · simp only [DataType.decode, TypedValue.encode, List.singleton_append]
        rw [get?_append_cons]
        rfl
  case NumberType.Number k m =>
    obtain ⟨hk, hwf, -, -⟩ := h
    subst hk
    simp only [DataType.decode, TypedValue.encode]
    rw [NumberKind.decode_encode m hwf pre post]
    rfl
  case StringType.StringValue n bs =>
    obtain ⟨hlen, h64, -⟩ := h
    simp only [DataType.decode, TypedValue.encode, ByteCodeCompiler.decode_string]
    rw [List.append_assoc (natToBe 8 bs.length) bs post]
    rw [decodeBeNat_exact 8 pre (natToBe 8 bs.length) (bs ++ post)
      (natToBe_length 8 _)]
    simp only [Option.bind]
    rw [beToNat_natToBe 8 _ h64]
    have hbound : pre.length + 8 + bs.length ≤
        (pre ++ (natToBe 8 bs.length ++ (bs ++ post))).length := by
      simp [natToBe_length]
      omega
    rw [if_pos hbound]
    have hre : pre ++ (natToBe 8 bs.length ++ (bs ++ post)) =
        (pre ++ natToBe 8 bs.length) ++ (bs ++ post) := by
      simp [List.append_assoc]
    have hlenp : (pre ++ natToBe 8 bs.length).length = pre.length + 8 := by
      simp [natToBe_length]
    rw [hre, ← hlenp, readBytes_exact (pre ++ natToBe 8 bs.length) bs post _ rfl]
    rfl

theorem encode_value_length (v : TypedValue) (m : FieldMetadata) (cap : Nat) :
    (Row.encode_value v m cap).length = cap := by
  unfold Row.encode_value
  exact resizeList_length _ _

/-- Decoding one field slot of the row buffer recovers the value written
by `Row::encode_value` (active metadata, zero padding). -/
theorem Row.decode_value_encode_value (dt : DataType) (v : TypedValue)
    (cap : Nat) (h : WellFormedValue dt v) (hcap : cap = dt.compute_fixed_size)
    (pre post : List Nat) :
    Row.decode_value dt
      (pre ++ (Row.encode_value v (FieldMetadata.new true) cap ++ post))
      pre.length = some v := by
  have hfits : (TypedValue.encode v).length + 1 ≤ cap := by
    rw [hcap]
    exact encode_fits dt v h
  have hS : Row.encode_value v (FieldMetadata.new true) cap =
      128 :: (TypedValue.encode v ++
        List.replicate (cap - ((TypedValue.encode v).length + 1)) 0) := by
    unfold Row.encode_value
    have hmb : FieldMetadata.encode (FieldMetadata.new true) = 128 := rfl
    rw [hmb, resizeList_pad _ _ (by simp only [List.length_cons]; omega)]
    simp only [List.cons_append, List.length_cons]
  rw [hS]
  unfold Row.decode_value
  have hre : (128 :: (TypedValue.encode v ++
      List.replicate (cap - ((TypedValue.encode v).length + 1)) 0)) ++ post =
      128 :: (TypedValue.encode v ++
        (List.replicate (cap - ((TypedValue.encode v).length + 1)) 0 ++ post)) := by
    simp [List.append_assoc]
  rw [hre, get?_append_cons pre 128 _]
  have hact : (FieldMetadata.decode 128).is_active = true := by decide
  simp only [Option.some_bind', hact, if_true]
  have hre2 : pre ++ (128 :: (TypedValue.encode v ++
      (List.replicate (cap - ((TypedValue.encode v).length + 1)) 0 ++ post))) =
      (pre ++ [128]) ++ (TypedValue.encode v ++
        (List.replicate (cap - ((TypedValue.encode v).length + 1)) 0 ++ post)) := by
    simp
  have hlen1 : (pre ++ [128]).length = pre.length + 1 := by simp
  unfold TypedValue.decode
  rw [hre2, ← hlen1, DataType.decode_encode_value dt v h (pre ++ [128]) _]

theorem fields_flatten_length (vals : List TypedValue)
    (cols : List TableColumn) (h : vals.length = cols.length) :
    (((vals.zip cols).map (fun vc =>
        Row.encode_value vc.1 (FieldMetadata.new true)
          vc.2.max_physical_size)).flatten).length =
      (cols.map (·.max_physical_size)).sum := by
  induction vals generalizing cols with
  | nil =>
    cases cols with
    | nil => simp
    | cons c cs => simp at h
  | cons v vs ih =>
    cases cols with
    | nil => simp at h
    | cons c cs =>
      rw [show (v :: vs).zip (c :: cs) = (v, c) :: vs.zip cs from rfl]
      simp only [List.map_cons, List.flatten_cons, List.length_append,
        List.sum_cons]
      rw [encode_value_length, ih cs (by simp at h; omega)]

/-- Decoding every column slot of the encoded field area recovers the
row's values (induction along the schema). -/
theorem Row.decode_values (cols : List TableColumn) (vals : List TypedValue)
    (pre post : List Nat)
    (hwf : List.Forall₂
      (fun c v => WellFormedValue (TableColumn.data_type c) v) cols vals)
    (hcanon : ColumnsCanonicalFrom pre.length cols) :
    cols.mapM (fun t => Row.decode_value t.data_type
      (pre ++ (((vals.zip cols).map (fun vc =>
        Row.encode_value vc.1 (FieldMetadata.new true)
          vc.2.max_physical_size)).flatten ++ post))
      t.offset) = some vals := by
  induction hwf generalizing pre with
  | nil => rfl
  | @cons c v cs vs hcv htail ih =>
    obtain ⟨hoff, hmax, hrest⟩ := hcanon
    rw [show (v :: vs).zip (c :: cs) = (v, c) :: vs.zip cs from rfl]
    simp only [List.map_cons, List.flatten_cons, List.mapM_cons]
    have hre : (Row.encode_value v (FieldMetadata.new true)
          c.max_physical_size ++
        ((vs.zip cs).map (fun vc =>
          Row.encode_value vc.1 (FieldMetadata.new true)
            vc.2.max_physical_size)).flatten) ++ post =
        Row.encode_value v (FieldMetadata.new true) c.max_physical_size ++
          (((vs.zip cs).map (fun vc =>
            Row.encode_value vc.1 (FieldMetadata.new true)
              vc.2.max_physical_size)).flatten ++ post) := by
      simp [List.append_assoc]
    rw [hre]
    have hfirst : Row.decode_value c.data_type
        (pre ++ (Row.encode_value v (FieldMetadata.new true)
            c.max_physical_size ++
          (((vs.zip cs).map (fun vc =>
            Row.encode_value vc.1 (FieldMetadata.new true)
              vc.2.max_physical_size)).flatten ++ post)))
        c.offset = some v := by
      rw [hoff]
      exact Row.decode_value_encode_value c.data_type v c.max_physical_size
        hcv hmax pre _
    rw [hfirst]
    have hre2 : pre ++ (Row.encode_value v (FieldMetadata.new true)
          c.max_physical_size ++
        (((vs.zip cs).map (fun vc =>
          Row.encode_value vc.1 (FieldMetadata.new true)
            vc.2.max_physical_size)).flatten ++ post)) =
        (pre ++ Row.encode_value v (FieldMetadata.new true)
          c.max_physical_size) ++
          (((vs.zip cs).map (fun vc =>
            Row.encode_value vc.1 (FieldMetadata.new true)
              vc.2.max_physical_size)).flatten ++ post) := by
      simp [List.append_assoc]
    have hlenp : (pre ++ Row.encode_value v (FieldMetadata.new true)
        c.max_physical_size).length = pre.length + c.max_physical_size := by
      simp [encode_value_length]
    have htl := ih (pre ++ Row.encode_value v (FieldMetadata.new true)
      c.max_physical_size) (by rw [hlenp]; exact hrest)
    rw [hre2, htl]
    rfl

/-- Full row round-trip for well-formed rows over canonical schemas. -/
theorem Row.decode_of_encode (columns : List TableColumn) (r : Row)
    (hcanon : ColumnsCanonicalFrom Row.overhead columns)
    (hwf : Row.WellFormed columns r) :
    Row.decode (Row.encode r) columns = some (r, RowMetadata.new true) := by
  obtain ⟨hcols, hid, hvals⟩ := hwf
  obtain ⟨id, rcols, vals⟩ := r
  simp only [Row.columns] at hcols
  simp only [Row.id] at hid
  simp only [Row.values] at hvals
  subst rcols
  have hlen_eq : columns.length = vals.length := List.Forall₂.length_eq hvals
  have hflat : (((vals.zip columns).map (fun vc =>
      Row.encode_value vc.1 (FieldMetadata.new true)
        vc.2.max_physical_size)).flatten).length =
      (columns.map (·.max_physical_size)).sum :=
    fields_flatten_length vals columns hlen_eq.symm
  have hinner : (128 :: (natToBe 8 id ++
      ((vals.zip columns).map (fun vc =>
        Row.encode_value vc.1 (FieldMetadata.new true)
          vc.2.max_physical_size)).flatten)).length =
      Row.compute_record_size columns := by
    simp only [List.length_cons, List.length_append, natToBe_length, hflat,
      Row.compute_record_size, Row.overhead]
    omega
  have henc : Row.encode ⟨id, columns, vals⟩ = 128 :: (natToBe 8 id ++
      ((vals.zip columns).map (fun vc =>
        Row.encode_value vc.1 (FieldMetadata.new true)
          vc.2.max_physical_size)).flatten) := by
    unfold Row.encode
    simp only [Row.values, Row.columns, Row.id]
    rw [show RowMetadata.encode (RowMetadata.new true) = 128 from rfl]
    rw [show Codec.encode_row_id id = natToBe 8 id from rfl]
    exact resizeList_eq_self _ _ hinner
  rw [henc]
  unfold Row.decode
  rw [if_neg (by simp)]
  have hdid : Codec.decode_row_id (128 :: (natToBe 8 id ++
      ((vals.zip columns).map (fun vc =>
        Row.encode_value vc.1 (FieldMetadata.new true)
          vc.2.max_physical_size)).flatten)) 1 = some id := by
    unfold Codec.decode_row_id
    rw [show (128 :: (natToBe 8 id ++
        ((vals.zip columns).map (fun vc =>
          Row.encode_value vc.1 (FieldMetadata.new true)
            vc.2.max_physical_size)).flatten)) =
      [128] ++ (natToBe 8 id ++
        ((vals.zip columns).map (fun vc =>
          Row.encode_value vc.1 (FieldMetadata.new true)
            vc.2.max_physical_size)).flatten) from rfl]
    rw [show (1 : Nat) = ([128] : List Nat).length from rfl]
    rw [decodeBeNat_exact 8 [128] (natToBe 8 id) _ (natToBe_length 8 id)]
    rw [beToNat_natToBe 8 id hid]
  rw [hdid]
  simp only [Option.some_bind']
  have hpre : (128 :: natToBe 8 id).length = Row.overhead := by
    simp [natToBe_length, Row.overhead]
  have hv := Row.decode_values columns vals (128 :: natToBe 8 id) [] hvals
    (by rw [hpre]; exact hcanon)
  rw [show (128 :: (natToBe 8 id ++
      ((vals.zip columns).map (fun vc =>
        Row.encode_value vc.1 (FieldMetadata.new true)
          vc.2.max_physical_size)).flatten)) =
    (128 :: natToBe 8 id) ++
      (((vals.zip columns).map (fun vc =>
        Row.encode_value vc.1 (FieldMetadata.new true)
          vc.2.max_physical_size)).flatten ++ []) from by simp]
  rw [hv]
  have hmeta : RowMetadata.from_bytes
      (128 :: (natToBe 8 id ++
        (((vals.zip columns).map (fun vc =>
        Row.encode_value vc.1 (FieldMetadata.new true)
          vc.2.max_physical_size)).flatten ++ []))) 0 = RowMetadata.new true := by
    unfold RowMetadata.from_bytes
    rw [List.getD_cons_zero]
    decide
  simp only [Option.map_some']
  rw [List.cons_append, hmeta]

/-! ## Claim C1 -/

/-- **C1, counterexample.**  The unrestricted round-trip claim
`Row::decode(Row::encode(r), S) = (r, {is_allocated: true})` fails on the
code: (1) a row holding `Null` decodes with the null-ness lost
(`Row::encode` hardcodes active field metadata, rows.rs:156, and an active
`String` slot decodes to a `StringValue`); (2) a row holding a non-empty
array decodes to an empty one (`DataType::decode` discards the buffer for
`ArrayType`, data_types.rs:181); (3) a `RowId` column (2-byte slot) makes
`decode` read 8 bytes past the record and panic; (4) an `i8` column
holding `-1` encodes as the byte 255, on which the decode
`b.to_i8().unwrap()` (number_kind.rs:59) panics — so even a
width-fitting negative `i8` breaks the round-trip. -/
theorem row_roundtrip_counterexample :
    (Row.decode (Row.encode (Row.empty [⟨"symbol", .StringType 8, 9, 17⟩]))
        [⟨"symbol", .StringType 8, 9, 17⟩] ≠
      some (Row.empty [⟨"symbol", .StringType 8, 9, 17⟩],
        RowMetadata.new true)) ∧
    (Row.decode (Row.encode ⟨0, [⟨"a", .ArrayType 2, 9, 3⟩],
        [.ArrayValue [.Boolean true]]⟩) [⟨"a", .ArrayType 2, 9, 3⟩] ≠
      some (⟨0, [⟨"a", .ArrayType 2, 9, 3⟩], [.ArrayValue [.Boolean true]]⟩,
        RowMetadata.new true)) ∧
    (Row.decode (Row.encode ⟨0, [⟨"n", .NumberType .RowIdKind, 9, 3⟩],
        [.Number (.RowId 1)]⟩) [⟨"n", .NumberType .RowIdKind, 9, 3⟩] =
      none) ∧
    (Row.decode (Row.encode ⟨0, [⟨"b", .NumberType .I8Kind, 9, 2⟩],
        [.Number (.I8Value (-1))]⟩) [⟨"b", .NumberType .I8Kind, 9, 2⟩] =
      none) := by
  refine ⟨?_, ?_, ?_, ?_⟩
  · intro h
    rw [show Row.decode (Row.encode (Row.empty [⟨"symbol", .StringType 8, 9, 17⟩]))
        [⟨"symbol", .StringType 8, 9, 17⟩] =
      some (⟨0, [⟨"symbol", .StringType 8, 9, 17⟩], [.StringValue []]⟩,
        RowMetadata.new true) from rfl] at h
    simp [Row.empty] at h
  · intro h
    rw [show Row.decode (Row.encode (⟨0, [⟨"a", .ArrayType 2, 9, 3⟩],
        [.ArrayValue [.Boolean true]]⟩ : Row)) [⟨"a", .ArrayType 2, 9, 3⟩] =
      some (⟨0, [⟨"a", .ArrayType 2, 9, 3⟩], [.ArrayValue []]⟩,
        RowMetadata.new true) from rfl] at h
    simp at h
  · rfl
  · rfl

/-- **C1 (amended).**  For every row `r` built over a schema `S` with
precomputed offsets, whose values are present (non-null), conform to
directly-codable column types (Boolean, bounded String, numbers other
than `RowId`/`RowsAffected`) and fit their declared widths — where for
`i8` columns "fitting" additionally means the value lies in `[0, 128)`,
because `decode` panics on any stored negative `i8`
(`b.to_i8().unwrap()`, number_kind.rs:59; counterexample conjunct 4) —
decoding the encoding of `r` yields `r` back with metadata
`{is_allocated: true}`:
`Row::decode(Row::encode(r), S) = (r, {is_allocated: true})`. -/
theorem row_encode_decode_roundtrip (columns : List TableColumn) (r : Row)
    (hcanon : ColumnsCanonicalFrom Row.overhead columns)
    (hwf : Row.WellFormed columns r) :
    Row.decode (Row.encode r) columns = some (r, RowMetadata.new true) :=
  Row.decode_of_encode columns r hcanon hwf

/-- **C1, witness**: the round-trip at a concrete two-column row
(`symbol = "KING"`, `last_sale` an f64 bit pattern). -/
theorem row_encode_decode_roundtrip_witness :
    Row.decode
      (Row.encode ⟨7,
        [⟨"symbol", .StringType 8, 9, 17⟩,
         ⟨"last_sale", .NumberType .F64Kind, 26, 9⟩],
        [.StringValue [75, 73, 78, 71], .Number (.F64Value 4635213808043189862)]⟩)
      [⟨"symbol", .StringType 8, 9, 17⟩,
       ⟨"last_sale", .NumberType .F64Kind, 26, 9⟩] =
    some (⟨7,
      [⟨"symbol", .StringType 8, 9, 17⟩,
       ⟨"last_sale", .NumberType .F64Kind, 26, 9⟩],
      [.StringValue [75, 73, 78, 71], .Number (.F64Value 4635213808043189862)]⟩,
      RowMetadata.new true) :=
  row_encode_decode_roundtrip _ _
    ⟨rfl, rfl, rfl, rfl, trivial⟩
    ⟨rfl, by decide,
      List.Forall₂.cons ⟨by decide, by decide, by decide⟩
        (List.Forall₂.cons
          ⟨rfl, (by decide : (4635213808043189862 : Nat) < 2 ^ 64),
            by decide, by decide⟩
          List.Forall₂.nil)⟩

/-! ## Claim C2 -/

/-- **C2.**  For every column list `S`, the record size is a deterministic
pure function of `S` equal to 9 (1 metadata byte plus an 8-byte row id)
plus the sum of the fixed sizes of the columns:
`compute_record_size(S) = 9 + Σ fixed_size(column_i)`.  (The hypothesis
states that the columns carry their precomputed `max_physical_size`, §3.) -/
theorem record_size_eq_nine_plus_fixed_sizes (cols : List TableColumn)
    (h : ∀ c ∈ cols, TableColumn.max_physical_size c =
      DataType.compute_fixed_size (TableColumn.data_type c)) :
    Row.compute_record_size cols =
      9 + (cols.map (fun c =>
        DataType.compute_fixed_size (TableColumn.data_type c))).sum := by
  unfold Row.compute_record_size Row.overhead
  rw [List.map_congr_left h]

/-- **C2, witness**: the record size of the two-column quote schema. -/
theorem record_size_eq_nine_plus_fixed_sizes_witness :
    Row.compute_record_size
      [⟨"symbol", .StringType 8, 9, 17⟩,
       ⟨"last_sale", .NumberType .F64Kind, 26, 9⟩] =
    9 + (([⟨"symbol", .StringType 8, 9, 17⟩,
       ⟨"last_sale", .NumberType .F64Kind, 26, 9⟩] : List TableColumn).map
        (fun c => DataType.compute_fixed_size (TableColumn.data_type c))).sum :=
  record_size_eq_nine_plus_fixed_sizes _ (by
    intro c hc
    simp only [List.mem_cons, List.not_mem_nil, or_false] at hc
    rcases hc with rfl | rfl
    · rfl
    · rfl)

/-! ## Claim C4 -/

theorem sumFixedSize_eq (ts : List DataType) :
    sumFixedSize ts = (ts.map DataType.compute_fixed_size).sum := by
  induction ts with
  | nil => rfl
  | cons t ts ih => simp [sumFixedSize, ih]

theorem maxFixedSize_eq (ts : List DataType) :
    maxFixedSize ts = (ts.map DataType.compute_fixed_size).foldr max 0 := by
  induction ts with
  | nil => rfl
  | cons t ts ih => simp [maxFixedSize, ih]

/-- **C4, counterexample.**  The claim that `Binary(n)` and `Array(n)`
occupy `n` plus a length prefix when `n > 0` and the 8-byte pointer width
when `n = 0` fails on the code: `compute_fixed_size` uses the bare `n` for
both (data_types.rs:299,304), so `Binary(4)` occupies 5 bytes (not
`4 + 8 + 1 = 13`) and `Array(0)` occupies 1 byte (not `8 + 1 = 9`). -/
theorem fixed_size_counterexample :
    DataType.compute_fixed_size (.BinaryType 4) = 5 ∧ (5 : Nat) ≠ 4 + 8 + 1 ∧
    DataType.compute_fixed_size (.ArrayType 0) = 1 ∧ (1 : Nat) ≠ 8 + 1 :=
  ⟨rfl, by decide, rfl, by decide⟩

/-- **C4 (amended).**  `fixed_size` returns the exact inline byte width of
each type including the 1-byte field-metadata prefix: Boolean occupies 2;
`String(n)` and `ASCII(n)` occupy `n` plus the 8-byte length prefix
uniformly (at `n = 0` this coincides with the 8-byte pointer width);
`Binary(n)` and `Array(n)` occupy exactly `n` (no length prefix, no
pointer substitution at `n = 0`); `Struct(params)` and `Table(params, _)`
reserve `8·len(params)`; `Tuple` is the sum of its element sizes;
`Varying` is the maximum of its alternatives; `Error` reserves 256. -/
theorem fixed_size_spec (n cap : Nat) (params : List Parameter)
    (ts : List DataType) :
    DataType.compute_fixed_size .BooleanType = 2 ∧
    DataType.compute_fixed_size (.StringType n) = n + 8 + 1 ∧
    DataType.compute_fixed_size (.ASCIIType n) = n + 8 + 1 ∧
    DataType.compute_fixed_size (.BinaryType n) = n + 1 ∧
    DataType.compute_fixed_size (.ArrayType n) = n + 1 ∧
    DataType.compute_fixed_size (.StructureType params) =
      8 * params.length + 1 ∧
    DataType.compute_fixed_size (.TableType params cap) =
      8 * params.length + 1 ∧
    DataType.compute_fixed_size (.TupleType ts) =
      (ts.map DataType.compute_fixed_size).sum + 1 ∧
    DataType.compute_fixed_size (.VaryingType ts) =
      (ts.map DataType.compute_fixed_size).foldr max 0 + 1 ∧
    DataType.compute_fixed_size .ErrorType = 257 := by
  refine ⟨rfl, rfl, rfl, rfl, rfl, ?_, ?_, ?_, ?_, rfl⟩
  · simp [DataType.compute_fixed_size, Nat.mul_comm]
  · simp [DataType.compute_fixed_size, Nat.mul_comm]
  · simp [DataType.compute_fixed_size, sumFixedSize_eq]
  · simp [DataType.compute_fixed_size, maxFixedSize_eq]

/-! ## Claim C10 -/

/-- **C10.**  For `NumberKind::RowIdKind` and `RowsAffectedKind`, the
declared physical slot width (`compute_max_physical_size`) is 2 bytes, but
`decode` reads 8 bytes at the field's offset (`decode_u8x8`), so decoding
such a field reads 6 bytes past its declared slot — overlapping the next
field's bytes, and out of bounds (a panic) for a buffer sized exactly to
the slot. -/
theorem rowid_slot_narrower_than_decode :
    NumberKind.compute_max_physical_size .RowIdKind = 2 ∧
    NumberKind.compute_max_physical_size .RowsAffectedKind = 2 ∧
    (∀ (buf : List Nat) (off : Nat), buf.length = off + 2 →
      NumberKind.decode .RowIdKind buf off = none ∧
      NumberKind.decode .RowsAffectedKind buf off = none) ∧
    (∀ (buf : List Nat) (off : Nat), off + 8 ≤ buf.length →
      NumberKind.decode .RowIdKind buf off =
        some (.RowId (beToNat (readBytes buf off 8))) ∧
      NumberKind.decode .RowsAffectedKind buf off =
        some (.RowsAffected (beToInt 8 (readBytes buf off 8)))) := by
  refine ⟨rfl, rfl, ?_, ?_⟩
  · intro buf off h
    constructor
    · simp [NumberKind.decode, decodeBeNat, h]
    · simp [NumberKind.decode, decodeBeInt, h]
  · intro buf off h
    constructor
    · simp [NumberKind.decode, decodeBeNat, h]
    · simp [NumberKind.decode, decodeBeInt, h]

/-- **C10, witness**: a 2-byte buffer (the slot alone) makes decoding
panic, while an 8-byte buffer is read in full. -/
theorem rowid_slot_narrower_than_decode_witness :
    NumberKind.decode .RowIdKind [7, 7] 0 = none ∧
    NumberKind.decode .RowIdKind [0, 0, 0, 0, 0, 0, 0, 1] 0 =
      some (.RowId (beToNat (readBytes [0, 0, 0, 0, 0, 0, 0, 1] 0 8))) :=
  ⟨(rowid_slot_narrower_than_decode.2.2.1 [7, 7] 0 (by decide)).1,
   (rowid_slot_narrower_than_decode.2.2.2 [0, 0, 0, 0, 0, 0, 0, 1] 0
     (by decide)).1⟩

/-! ## Claim C5 -/

/-- **C5.**  For every in-memory collection, row id and row `r`:
`overwrite(id, r)` stores the full encoded record in slot `id`, extends
the high-water mark so that afterwards `len() = max(old len, id + 1)`, and
returns 1; and `append` is exactly `overwrite(len(), row)`. -/
theorem overwrite_stores_extends_returns_one (c : ByteRowCollection)
    (id : Nat) (r : Row) :
    (c.overwrite id r).1.row_data.get? id = some (Row.encode r) ∧
    (c.overwrite id r).1.len = max c.len (id + 1) ∧
    (c.overwrite id r).2 = 1 ∧
    c.append r = c.overwrite c.len r := by
  refine ⟨?_, ?_, rfl, rfl⟩
  · unfold ByteRowCollection.overwrite
    have hlt : id < (if c.row_data.length ≤ id then
        resizeWith c.row_data (id + 1) ([] : List Nat)
      else c.row_data).length := by
      split <;> rename_i hsp
      · unfold resizeWith
        rw [if_pos (by omega)]
        simp
        omega
      · omega
    simp only
    rw [List.get?_eq_getElem?, List.getElem?_set_eq_of_lt _ hlt]
  · unfold ByteRowCollection.overwrite ByteRowCollection.len
    simp only
    split <;> rename_i hsp <;> omega

/-! ## Claim C9 -/

/-- **C9.**  In the in-memory backing, `read`, `read_field`,
`overwrite_metadata` and `read_range` index directly into the vector of
row buffers, so for every id ≥ `len()` the operation panics (`none` in
the embedding) instead of returning an error value; after `resize`
extends the collection the new slots are empty byte vectors, and
`overwrite_metadata` on such a never-written slot panics when indexing
byte 0.  (The hypothesis `watermark = row_data.length` is the invariant
every state built through the API maintains.) -/
theorem inmemory_oob_panics (c : ByteRowCollection) (id : Nat)
    (hinv : c.watermark = c.row_data.length) (hid : c.len ≤ id) :
    c.read id = none ∧
    (∀ column_id, c.read_field id column_id = none) ∧
    (∀ m, c.overwrite_metadata id m = none) ∧
    (∀ lo hi, c.row_data.length < hi → c.read_range lo hi = none) ∧
    (∀ n, c.row_data.length ≤ n →
      (∀ j, c.row_data.length ≤ j → j < n →
        (c.resize n).row_data.get? j = some ([] : List Nat)) ∧
      (∀ j m, c.row_data.length ≤ j → j < n →
        (c.resize n).overwrite_metadata j m = none)) := by
  unfold ByteRowCollection.len at hid
  have hnone : c.row_data.get? id = none := by
    rw [List.get?_eq_getElem?, List.getElem?_eq_none]
    omega
  refine ⟨?_, ?_, ?_, ?_, ?_⟩
  · unfold ByteRowCollection.read
    rw [hnone]
    rfl
  · intro column_id
    unfold ByteRowCollection.read_field
    cases hcol : c.columns.get? column_id with
    | none => rfl
    | some col =>
      simp only [Option.some_bind']
      rw [hnone]
      rfl
  · intro m
    unfold ByteRowCollection.overwrite_metadata
    rw [hnone]
    rfl
  · intro lo hi hhi
    unfold ByteRowCollection.read_range
    rw [if_neg (by omega)]
  · intro n hn
    constructor
    · intro j hj1 hj2
      unfold ByteRowCollection.resize resizeWith
      simp only
      rw [if_pos hn, List.get?_eq_getElem?, List.getElem?_append_right (by simpa using hj1)]
      rw [List.getElem?_replicate]
      simp
      omega
    · intro j m hj1 hj2
      unfold ByteRowCollection.overwrite_metadata
      have hslot : (c.resize n).row_data.get? j = some ([] : List Nat) := by
        unfold ByteRowCollection.resize resizeWith
        simp only
        rw [if_pos hn, List.get?_eq_getElem?,
          List.getElem?_append_right (by simpa using hj1)]
        rw [List.getElem?_replicate]
        simp
        omega
      rw [hslot]
      rfl

/-- **C9, witness**: on an empty collection, reading slot 0 panics, and
after `resize 2` the fresh slot 1 is an empty vector on which
`overwrite_metadata` panics. -/
theorem inmemory_oob_panics_witness :
    (ByteRowCollection.new [] []).read 0 = none ∧
    ((ByteRowCollection.new [] []).resize 2).row_data.get? 1 =
      some ([] : List Nat) ∧
    ((ByteRowCollection.new [] []).resize 2).overwrite_metadata 1
      (RowMetadata.new false) = none :=
  ⟨(inmemory_oob_panics (ByteRowCollection.new [] []) 0 rfl
      (by decide)).1,
   ((inmemory_oob_panics (ByteRowCollection.new [] []) 0 rfl
      (by decide)).2.2.2.2 2 (by decide)).1 1 (by decide) (by decide),
   ((inmemory_oob_panics (ByteRowCollection.new [] []) 0 rfl
      (by decide)).2.2.2.2 2 (by decide)).2 1 (RowMetadata.new false)
     (by decide) (by decide)⟩

/-! ## Claim C3: tombstone preservation -/

theorem resizeList_cons_head (b : Nat) (xs : List Nat) (c : Nat)
    (hc : 1 ≤ c) : ∃ t, resizeList (b :: xs) c = b :: t := by
  unfold resizeList
  split
  · exact ⟨xs ++ List.replicate (c - (b :: xs).length) 0, by simp⟩
  · obtain ⟨k, rfl⟩ : ∃ k, c = k + 1 := ⟨c - 1, by omega⟩
    exact ⟨xs.take k, rfl⟩

/-- Every encoded row starts with the allocated metadata byte `0x80`. -/
theorem Row.encode_head (r : Row) : ∃ t, Row.encode r = 128 :: t := by
  have hcap : 1 ≤ Row.compute_record_size r.columns := by
    unfold Row.compute_record_size Row.overhead
    omega
  have h := resizeList_cons_head 128
    (Codec.encode_row_id r.id ++
      ((r.values.zip r.columns).map (fun vc =>
        Row.encode_value vc.1 (FieldMetadata.new true)
          vc.2.max_physical_size)).flatten)
    (Row.compute_record_size r.columns) hcap
  exact h

theorem set_of_get?_eq {α : Type} (l : List α) (i : Nat) (a : α)
    (h : l.get? i = some a) : l.set i a = l := by
  induction l generalizing i with
  | nil => simp at h
  | cons x xs ih =>
    cases i with
    | zero =>
      simp only [List.get?_cons_zero, Option.some.injEq] at h
      rw [List.set_cons_zero, h]
    | succ n =>
      simp only [List.get?_cons_succ] at h
      rw [List.set_cons_succ, ih n h]

/-- Decoding a field at a positive offset never looks at byte 0. -/
theorem Row.decode_value_cons (dt : DataType) (b b' : Nat) (t : List Nat)
    (o : Nat) :
    Row.decode_value dt (b' :: t) (o + 1) =
      Row.decode_value dt (b :: t) (o + 1) := by
  cases dt
  case NumberType k => cases k <;> rfl
  all_goals rfl

theorem mapM_decode_value_cons (columns : List TableColumn) (b b' : Nat)
    (t : List Nat)
    (hoffs : ∀ c ∈ columns, 1 ≤ TableColumn.offset c) :
    columns.mapM (fun tc =>
        Row.decode_value tc.data_type (b' :: t) tc.offset) =
      columns.mapM (fun tc =>
        Row.decode_value tc.data_type (b :: t) tc.offset) := by
  induction columns with
  | nil => rfl
  | cons c cs ih =>
    rw [List.mapM_cons, List.mapM_cons]
    have h1 : 1 ≤ c.offset := hoffs c (by simp)
    obtain ⟨o, ho⟩ : ∃ o, c.offset = o + 1 := ⟨c.offset - 1, by omega⟩
    rw [ho, Row.decode_value_cons c.data_type b b' t o,
      ih (fun x hx => hoffs x (List.mem_cons_of_mem c hx))]

/-- Rewriting byte 0 of a record buffer changes only the decoded row
metadata (all columns sit at offsets ≥ 1). -/
theorem Row.decode_cons (columns : List TableColumn) (b b' : Nat)
    (t : List Nat)
    (hoffs : ∀ c ∈ columns, 1 ≤ TableColumn.offset c) :
    Row.decode (b' :: t) columns =
      (Row.decode (b :: t) columns).map
        (fun rm => (rm.1, RowMetadata.decode b')) := by
  unfold Row.decode
  rw [if_neg (by simp), if_neg (by simp)]
  have hid : Codec.decode_row_id (b' :: t) 1 =
      Codec.decode_row_id (b :: t) 1 := rfl
  rw [hid, mapM_decode_value_cons columns b b' t hoffs]
  cases hdi : Codec.decode_row_id (b :: t) 1 with
  | none => rfl
  | some i =>
    simp only [Option.some_bind']
    cases hmm : columns.mapM (fun tc =>
        Row.decode_value tc.data_type (b :: t) tc.offset) with
    | none => rfl
    | some vs => rfl

theorem canonical_offset_ge (off : Nat) (cols : List TableColumn)
    (h : ColumnsCanonicalFrom off cols) :
    ∀ c ∈ cols, off ≤ TableColumn.offset c := by
  induction cols generalizing off with
  | nil =>
    intro c hc
    simp at hc
  | cons c0 cs ih =>
    obtain ⟨h1, h2, h3⟩ := h
    intro c hc
    rcases List.mem_cons.mp hc with rfl | hc
    · omega
    · have := ih (off + c0.max_physical_size) h3 c hc
      omega

/-- **C3.**  For every in-memory collection and row id holding an encoded
(well-formed) row: `delete(id)` — writing row metadata with
`is_allocated = false` — makes `read(id)` return metadata with
`is_allocated = false`, makes `read_range` over any range containing `id`
omit that row (the scan equals the original scan below `id` concatenated
with the original scan above `id`, so no neighboring row is renumbered),
and a subsequent `undelete(id)` restores the collection byte-identically
to its pre-deletion state. -/
theorem tombstone_delete_undelete (c : ByteRowCollection) (id : Nat)
    (r : Row)
    (hcanon : ColumnsCanonicalFrom Row.overhead c.columns)
    (hwf : Row.WellFormed c.columns r)
    (hslot : c.row_data.get? id = some (Row.encode r)) :
    ∃ c', c.delete id = some (c', 1) ∧
      c'.read id = some (r, RowMetadata.new false) ∧
      (∀ lo hi, lo ≤ id → id < hi → hi ≤ c.row_data.length →
        c'.read_range lo hi =
          (c.read_range lo id).bind (fun a =>
            (c.read_range (id + 1) hi).map (fun b => a ++ b))) ∧
      c'.undelete id = some (c, 1) := by
  obtain ⟨tail, htail⟩ := Row.encode_head r
  have hidlt : id < c.row_data.length := by
    by_contra h
    rw [List.get?_eq_getElem?, List.getElem?_eq_none (by omega)] at hslot
    exact Option.noConfusion hslot
  have hoffs : ∀ col ∈ c.columns, 1 ≤ TableColumn.offset col := by
    intro col hcol
    have := canonical_offset_ge Row.overhead c.columns hcanon col hcol
    unfold Row.overhead at this
    omega
  have hdec0 : Row.decode (0 :: tail) c.columns =
      some (r, RowMetadata.new false) := by
    rw [Row.decode_cons c.columns 128 0 tail hoffs, ← htail,
      Row.decode_of_encode c.columns r hcanon hwf]
    rfl
  refine ⟨⟨c.columns, c.row_data.set id (0 :: tail), c.record_size,
    c.watermark⟩, ?_, ?_, ?_, ?_⟩
  · -- delete succeeds and clears byte 0
    unfold ByteRowCollection.delete ByteRowCollection.overwrite_metadata
    rw [hslot]
    simp only [Option.some_bind']
    rw [htail]
    rfl
  · -- read sees is_allocated = false, values intact
    unfold ByteRowCollection.read
    simp only
    rw [List.get?_eq_getElem?, List.getElem?_set_eq_of_lt _ hidlt]
    simp only [Option.some_bind']
    exact hdec0
  · -- range scans skip the tombstoned slot and keep neighbors
    intro lo hi hlo hhi1 hhi2
    unfold ByteRowCollection.read_range
    simp only
    rw [if_pos ⟨by omega, by simp; omega⟩, if_pos ⟨by omega, by omega⟩,
      if_pos ⟨by omega, by omega⟩]
    have hsplit : ((c.row_data.set id (0 :: tail)).drop lo).take (hi - lo) =
        ((c.row_data.drop lo).take (id - lo)) ++ (0 :: tail) ::
          ((c.row_data.drop (id + 1)).take (hi - (id + 1))) := by
      rw [List.set_eq_take_cons_drop _ hidlt,
        List.drop_append_eq_append_drop, List.length_take]
      rw [show lo - min id c.row_data.length = 0 from by omega,
        List.drop_zero, List.take_append_eq_append_take]
      have hA : (List.take id c.row_data).drop lo =
          (c.row_data.drop lo).take (id - lo) := by
        rw [List.drop_take]
      rw [List.length_drop, List.length_take]
      rw [show (hi - lo) - (min id c.row_data.length - lo) = hi - id from by
        omega]
      rw [List.take_of_length_le (by rw [List.length_drop, List.length_take]; omega)]
      rw [hA]
      congr 1
      rw [show hi - id = (hi - (id + 1)) + 1 from by omega]
      rfl
    rw [hsplit, List.mapM_append]
    cases hA : ((c.row_data.drop lo).take (id - lo)).mapM
        (fun b => Row.decode b c.columns) with
    | none => simp [hA]
    | some A =>
      cases hB : ((c.row_data.drop (id + 1)).take (hi - (id + 1))).mapM
          (fun b => Row.decode b c.columns) with
      | none =>
        have hmid : ((0 :: tail) ::
            ((c.row_data.drop (id + 1)).take (hi - (id + 1)))).mapM
              (fun b => Row.decode b c.columns) = none := by
          simp only [List.mapM_cons, hdec0, hB]
          rfl
        have hmid2 : List.mapM.loop (fun b => Row.decode b c.columns)
            ((0 :: tail) ::
              ((c.row_data.drop (id + 1)).take (hi - (id + 1)))) [] =
            none := hmid
        simp [hA, hmid2]
      | some B =>
        have hmid : ((0 :: tail) ::
            ((c.row_data.drop (id + 1)).take (hi - (id + 1)))).mapM
              (fun b => Row.decode b c.columns) =
            some ((r, RowMetadata.new false) :: B) := by
          simp only [List.mapM_cons, hdec0, hB]
          rfl
        have hmid2 : List.mapM.loop (fun b => Row.decode b c.columns)
            ((0 :: tail) ::
              ((c.row_data.drop (id + 1)).take (hi - (id + 1)))) [] =
            some ((r, RowMetadata.new false) :: B) := hmid
        simp [hA, hmid2, List.filterMap_cons, RowMetadata.new,
          List.filterMap_append]
  · -- undelete restores the collection byte-identically
    unfold ByteRowCollection.undelete ByteRowCollection.overwrite_metadata
    simp only
    rw [List.get?_eq_getElem?, List.getElem?_set_eq_of_lt _ hidlt]
    simp only [Option.some_bind']
    rw [show ((0 : Nat) :: tail).set 0
        (RowMetadata.encode (RowMetadata.new true)) = 128 :: tail from rfl]
    rw [List.set_set, ← htail, set_of_get?_eq _ _ _ hslot]
    rfl

/-- **C3, witness**: delete / read / read_range / undelete on a concrete
one-row, one-column collection. -/
theorem tombstone_delete_undelete_witness :
    ∃ c', (ByteRowCollection.new [⟨"symbol", .StringType 8, 9, 17⟩]
        [Row.encode ⟨0, [⟨"symbol", .StringType 8, 9, 17⟩],
          [.StringValue [75, 73, 78, 71]]⟩]).delete 0 = some (c', 1) ∧
      c'.read 0 = some (⟨0, [⟨"symbol", .StringType 8, 9, 17⟩],
        [.StringValue [75, 73, 78, 71]]⟩, RowMetadata.new false) ∧
      (∀ lo hi, lo ≤ 0 → 0 < hi →
        hi ≤ (ByteRowCollection.new [⟨"symbol", .StringType 8, 9, 17⟩]
          [Row.encode ⟨0, [⟨"symbol", .StringType 8, 9, 17⟩],
            [.StringValue [75, 73, 78, 71]]⟩]).row_data.length →
        c'.read_range lo hi =
          ((ByteRowCollection.new [⟨"symbol", .StringType 8, 9, 17⟩]
            [Row.encode ⟨0, [⟨"symbol", .StringType 8, 9, 17⟩],
              [.StringValue [75, 73, 78, 71]]⟩]).read_range lo 0).bind
            (fun a => ((ByteRowCollection.new
              [⟨"symbol", .StringType 8, 9, 17⟩]
              [Row.encode ⟨0, [⟨"symbol", .StringType 8, 9, 17⟩],
                [.StringValue [75, 73, 78, 71]]⟩]).read_range 1 hi).map
              (fun b => a ++ b))) ∧
      c'.undelete 0 = some (ByteRowCollection.new
        [⟨"symbol", .StringType 8, 9, 17⟩]
        [Row.encode ⟨0, [⟨"symbol", .StringType 8, 9, 17⟩],
          [.StringValue [75, 73, 78, 71]]⟩], 1) :=
  tombstone_delete_undelete _ 0 _
    ⟨rfl, rfl, trivial⟩
    ⟨rfl, by decide,
      List.Forall₂.cons ⟨by decide, by decide, by decide⟩ List.Forall₂.nil⟩
    rfl

/-! ## Value-level operations and renderers

`typed_values.rs`, `numbers.rs`, `structures.rs` and `parameter.rs` are
not in the sources; the operations below are modelled from the spec
(§4.F/§4.I).  Every arithmetic/bitwise operation is a *total* function on
values (the numeric tower of the missing file; only the integer lane is
given concretely — no property studied here depends on the computed
value, only on totality and on which expressions reach an operation). -/

namespace Numbers

/-- Modelled from the spec: the rendering of a numeric literal (float
payloads are bit patterns here and render as such). -/
def to_code : Numbers → String
  | .Ack => "Ack"
  | .RowId n => toString n
  | .RowsAffected i => toString i
  | .DateValue i => toString i
  | .F32Value bits => toString bits
  | .F64Value bits => toString bits
  | .I8Value i => toString i
  | .I16Value i => toString i
  | .I32Value i => toString i
  | .I64Value i => toString i
  | .I128Value i => toString i
  | .U8Value n => toString n
  | .U16Value n => toString n
  | .U32Value n => toString n
  | .U64Value n => toString n
  | .U128Value n => toString n
  | .UUIDValue n => toString n
  | .NaNValue => "NaN"

end Numbers

namespace TypedValue

/-- Modelled from the spec: `TypedValue::get_type`. -/
def get_type : TypedValue → DataType
  | .ArrayValue items => .ArrayType items.length
  | .ASCII cs => .ASCIIType cs.length
  | .Binary bs => .BinaryType bs.length
  | .Boolean _ => .BooleanType
  | .ErrorValue _ => .ErrorType
  | .Function params _ returns => .FunctionType params returns
  | .Null => .Indeterminate
  | .Number n => .NumberType n.kind
  | .PlatformOp p => .PlatformOpsType p
  | .StringValue bs => .StringType bs.length
  | .Structured _ => .StructureType []
  | .TableValue _ => .TableType [] 0
  | .TupleValue items => .TupleType (items.map (fun _ => .Indeterminate))
  | .Undefined => .Indeterminate

def is_true : TypedValue → Bool
  | .Boolean true => true
  | _ => false

def to_usize : TypedValue → Nat
  | .Number n => n.to_usize
  | _ => 0

/-- Integer lane of the numeric tower (modelled; total). -/
def binInt (f : Int → Int → Int) : TypedValue → TypedValue → TypedValue
  | .Number (.I64Value a), .Number (.I64Value b) => .Number (.I64Value (f a b))
  | _, _ => .Undefined

def add (a b : TypedValue) : TypedValue := binInt (· + ·) a b

def sub (a b : TypedValue) : TypedValue := binInt (· - ·) a b

def mul (a b : TypedValue) : TypedValue := binInt (· * ·) a b

/-- Division; integer division by zero yields a typed error value (§4.I). -/
def div : TypedValue → TypedValue → TypedValue
  | .Number (.I64Value a), .Number (.I64Value b) =>
      if b = 0 then .ErrorValue (.Exact "division by zero")
      else .Number (.I64Value (a / b))
  | _, _ => .Undefined

def rem (a b : TypedValue) : TypedValue := binInt (· % ·) a b

def bitand (a b : TypedValue) : TypedValue :=
  binInt (fun x y => Int.land x y) a b

def bitor (a b : TypedValue) : TypedValue :=
  binInt (fun x y => Int.lor x y) a b

def bitxor (a b : TypedValue) : TypedValue :=
  binInt (fun x y => Int.xor x y) a b

def shl (a b : TypedValue) : TypedValue :=
  binInt (fun x y => x * 2 ^ y.toNat) a b

def shr (a b : TypedValue) : TypedValue :=
  binInt (fun x y => x / 2 ^ y.toNat) a b

def neg : TypedValue → TypedValue
  | .Number (.I64Value a) => .Number (.I64Value (-a))
  | _ => .Undefined

/-- `TypedValue::pow` returns an `Option` in the source. -/
def pow : TypedValue → TypedValue → Option TypedValue
  | .Number (.I64Value a), .Number (.I64Value b) =>
      some (.Number (.I64Value (a ^ b.toNat)))
  | _, _ => none

def factorial : TypedValue → TypedValue
  | .Number (.I64Value a) => .Number (.I64Value (Nat.factorial a.toNat))
  | _ => .Undefined

/-- `TypedValue::express_range(a, b, step)` (modelled: the integer range
`a..b`). -/
def express_range : TypedValue → TypedValue → TypedValue → List TypedValue
  | .Number (.I64Value a), .Number (.I64Value b), _ =>
      (List.range (b - a).toNat).map (fun k => .Number (.I64Value (a + k)))
  | _, _, _ => []

end TypedValue

namespace Structures

def get_values : Structures → List TypedValue
  | .Hard values => values.map (·.2)
  | .Soft values => values.map (·.2)
  | .Firm row _ => Row.values row

/-- Modelled from the spec: the parameters of a structure value. -/
def get_parameters : Structures → List Parameter
  | .Hard values => values.map (fun nv => ⟨nv.1, nv.2.get_type, nv.2⟩)
  | .Soft values => values.map (fun nv => ⟨nv.1, nv.2.get_type, nv.2⟩)
  | .Firm _ columns =>
      columns.map (fun c => ⟨c.name, c.data_type, .Null⟩)

end Structures

namespace Dataframe

def get_columns : Dataframe → List TableColumn
  | .Model mrc => match mrc with | .mk columns _ => columns

/-- `read_one` on the in-memory model collection (modelled: total). -/
def read_one (df : Dataframe) (id : Nat) : Option Row :=
  match df with
  | .Model (.mk _ rows) => rows.get? id

end Dataframe

/-- Modelled from the spec: `Parameter::new(name, data_type)`. -/
def Parameter.new (name : String) (data_type : DataType) : Parameter :=
  ⟨name, data_type, .Null⟩

/-- Modelled from the spec: `Parameter::build(name)`, an untyped
parameter. -/
def Parameter.build (name : String) : Parameter :=
  ⟨name, .VaryingType [], .Null⟩

/-- Modelled from the spec: `Parameter::from_tuple(name, value)` infers
the type from the pure default value (cf. the `Enum(A := 1)` test). -/
def Parameter.from_tuple (name : String) (value : TypedValue) : Parameter :=
  ⟨name, value.get_type, value⟩

/-! ## Renderers (`to_code`)

`DataType::to_code` is ported from data_types.rs:365-412;
`NumberKind::get_type_name` from number_kind.rs:98-121.  The value- and
parameter-level renderers are modelled (their files are not in the
sources); no property studied here depends on the rendered text beyond
the cases evaluated concretely. -/

def joinComma (xs : List String) : String := String.intercalate ", " xs

def joinBar (xs : List String) : String := String.intercalate "|" xs

def joinNewline (xs : List String) : String := String.intercalate "\n" xs

/-- `sized(name, size)` of `DataType::to_code`. -/
def sized (name : String) (size : Nat) : String :=
  if size = 0 then name else name ++ "(" ++ toString size ++ ")"

/-- `NumberKind::get_type_name` (number_kind.rs:98-121). -/
def NumberKind.get_type_name : NumberKind → String
  | .AckKind => "Ack"
  | .RowIdKind => "RowId"
  | .RowsAffectedKind => "RowsAffected"
  | .DateKind => "Date"
  | .F32Kind => "f32"
  | .F64Kind => "f64"
  | .I8Kind => "i8"
  | .I16Kind => "i16"
  | .I32Kind => "i32"
  | .I64Kind => "i64"
  | .I128Kind => "i128"
  | .U8Kind => "u8"
  | .U16Kind => "u16"
  | .U32Kind => "u32"
  | .U64Kind => "u64"
  | .U128Kind => "u128"
  | .UUIDKind => "UUID"
  | .NaNKind => "NaN"

mutual

/-- Modelled from the spec: rendering of a value literal. -/
def TypedValue.to_code : TypedValue → String
  | .ArrayValue items => "[" ++ joinComma (toCodeList items) ++ "]"
  | .ASCII cs => "\"" ++ stringOfBytes cs ++ "\""
  | .Binary _ => "Binary"
  | .Boolean b => if b then "true" else "false"
  | .ErrorValue _ => "Error"
  | .Function params _ _ => "fn(" ++ joinComma (paramCodeList params) ++ ")"
  | .Null => "null"
  | .Number n => n.to_code
  | .PlatformOp p => p.name
  | .StringValue bs => "\"" ++ stringOfBytes bs ++ "\""
  | .Structured _ => "Struct"
  | .TableValue _ => "Table"
  | .TupleValue items => "(" ++ joinComma (toCodeList items) ++ ")"
  | .Undefined => "undefined"

def toCodeList : List TypedValue → List String
  | [] => []
  | v :: vs => v.to_code :: toCodeList vs

/-- `DataType::to_code` (data_types.rs:365-412). -/
def DataType.to_code : DataType → String
  | .ArrayType size => sized "Array" size
  | .ASCIIType size => sized "ASCII" size
  | .BinaryType size => sized "Binary" size
  | .BooleanType => "Boolean"
  | .EnumType labels =>
      if labels.length = 0 then "Enum"
      else "Enum(" ++ joinComma (paramCodeEnumList labels) ++ ")"
  | .ErrorType => "Error"
  | .FunctionType params returns =>
      "fn(" ++ joinComma (paramCodeList params) ++ ")" ++
        (match returns.to_code with
          | "" => ""
          | s => ": " ++ s)
  | .Indeterminate => ""
  | .NumberType nk => nk.get_type_name
  | .PlatformOpsType pf => pf.name
  | .StringType size => sized "String" size
  | .StructureType params =>
      if params.length = 0 then "Struct"
      else "Struct(" ++ joinComma (paramCodeList params) ++ ")"
  | .TableType params _ =>
      if params.length = 0 then "Table"
      else "Table(" ++ joinComma (paramCodeList params) ++ ")"
  | .TupleType types =>
      if types.length = 0 then ""
      else "(" ++ joinComma (typeCodeList types) ++ ")"
  | .VaryingType dts => joinBar (typeCodeList dts)

def typeCodeList : List DataType → List String
  | [] => []
  | t :: ts => t.to_code :: typeCodeList ts

/-- Modelled from the spec: `Parameter::to_code` — `name: Type` with an
optional `:= default`. -/
def Parameter.to_code : Parameter → String
  | ⟨name, dt, _⟩ =>
      match dt.to_code with
      | "" => name
      | s => name ++ ": " ++ s

/-- Modelled from the spec: `Parameter::to_code_enum` — `name := value`. -/
def Parameter.to_code_enum : Parameter → String
  | ⟨name, _, .Null⟩ => name
  | ⟨name, _, v⟩ => name ++ " := " ++ v.to_code

def paramCodeList : List Parameter → List String
  | [] => []
  | p :: ps => p.to_code :: paramCodeList ps

def paramCodeEnumList : List Parameter → List String
  | [] => []
  | p :: ps => p.to_code_enum :: paramCodeEnumList ps

end

def ImportOps.to_code : ImportOps → String
  | .Everything pkg => pkg
  | .Selection pkg items => pkg ++ "::" ++ joinComma items

/-! ## `Expression::decompile` (expression.rs:265-531)

The decompiler, used by `to_pure` and `decipher_type` to render error
payloads.  Braces are written with their escapes. -/

set_option maxHeartbeats 3200000 in
mutual

def Expression.decompile : Expression → String
  | .ArrayExpression items => "[" ++ joinComma (decompileEach items) ++ "]"
  | .AsValue name expr => name ++ ": " ++ Expression.decompile expr
  | .BitwiseAnd a b =>
      Expression.decompile a ++ " & " ++ Expression.decompile b
  | .BitwiseOr a b =>
      Expression.decompile a ++ " | " ++ Expression.decompile b
  | .BitwiseXor a b =>
      Expression.decompile a ++ " ^ " ++ Expression.decompile b
  | .BitwiseShiftLeft a b =>
      Expression.decompile a ++ " << " ++ Expression.decompile b
  | .BitwiseShiftRight a b =>
      Expression.decompile a ++ " >> " ++ Expression.decompile b
  | .CodeBlock items => decompileCodeBlocks items
  | .Condition cond => Expression.decompile_cond cond
  | .Directive d => decompileDirectives d
  | .Divide a b =>
      Expression.decompile a ++ " / " ++ Expression.decompile b
  | .ElementAt a b =>
      Expression.decompile a ++ "[" ++ Expression.decompile b ++ "]"
  | .Extraction a b =>
      Expression.decompile a ++ "::" ++ Expression.decompile b
  | .ExtractPostfix a b =>
      Expression.decompile a ++ ":::" ++ Expression.decompile b
  | .Factorial a => Expression.decompile a ++ "¡"
  | .Feature title scenarios =>
      "feature " ++ Expression.decompile title ++ " \x7b\n" ++
        joinNewline (decompileEach scenarios) ++ "\n\x7d"
  | .FnExpression params body returns =>
      "fn(" ++ joinComma (paramCodeList params) ++ ")" ++
        (match returns.to_code with
          | "" => ""
          | type_name => ": " ++ type_name) ++
        (match body with
          | some my_body => " => " ++ Expression.decompile my_body
          | none => "")
  | .ForEach a b c =>
      "foreach " ++ a ++ " in " ++ Expression.decompile b ++ " " ++
        Expression.decompile c
  | .From a => "from " ++ Expression.decompile a
  | .FunctionCall fx args =>
      Expression.decompile fx ++ "(" ++ joinComma (decompileEach args) ++ ")"
  | .HTTP method url body headers multipart =>
      Expression.decompile method ++ " " ++ Expression.decompile url ++
        decompileOpt body ++ decompileOpt headers ++ decompileOpt multipart
  | .If condition a b =>
      "if " ++ Expression.decompile condition ++ " " ++
        Expression.decompile a ++
        (match b with
          | some x => " else " ++ Expression.decompile x
          | none => "")
  | .Import args => "import " ++ joinComma (args.map ImportOps.to_code)
  | .Include path => "include " ++ Expression.decompile path
  | .JSONExpression items =>
      "\x7b" ++ joinComma (decompileKV items) ++ "\x7d"
  | .Literal value => value.to_code
  | .Minus a b =>
      Expression.decompile a ++ " - " ++ Expression.decompile b
  | .Module name ops => name ++ " " ++ decompileCodeBlocks ops
  | .Modulo a b =>
      Expression.decompile a ++ " % " ++ Expression.decompile b
  | .Multiply a b =>
      Expression.decompile a ++ " * " ++ Expression.decompile b
  | .Neg a => "-(" ++ Expression.decompile a ++ ")"
  | .Ns a => "ns(" ++ Expression.decompile a ++ ")"
  | .Parameters params => joinComma (paramCodeList params)
  | .Plus a b =>
      Expression.decompile a ++ " + " ++ Expression.decompile b
  | .PlusPlus a b =>
      Expression.decompile a ++ " ++ " ++ Expression.decompile b
  | .Pow a b =>
      Expression.decompile a ++ " ** " ++ Expression.decompile b
  | .DatabaseOp job =>
      match job with
      | .Queryable q => decompileQueryables q
      | .Mutation m => decompileModifications m
  | .Range a b =>
      Expression.decompile a ++ ".." ++ Expression.decompile b
  | .Return items => "return " ++ joinComma (decompileEach items)
  | .Scenario title verifications =>
      "scenario " ++ Expression.decompile title ++ " \x7b\n" ++
        joinNewline (decompileEach verifications) ++ "\n\x7d"
  | .SetVariable name value => name ++ " := " ++ Expression.decompile value
  | .SetVariables name value =>
      Expression.decompile name ++ " := " ++ Expression.decompile value
  | .TupleExpression args =>
      "(" ++ joinComma (decompileEach args) ++ ")"
  | .Variable name => name
  | .Via expr => "via " ++ Expression.decompile expr
  | .While condition code =>
      "while " ++ Expression.decompile condition ++ " " ++
        Expression.decompile code

def decompileEach : List Expression → List String
  | [] => []
  | e :: es => Expression.decompile e :: decompileEach es

def decompileKV : List (String × Expression) → List String
  | [] => []
  | (k, v) :: kvs =>
      (k ++ ": " ++ Expression.decompile v) :: decompileKV kvs

def decompileCodeBlocks (ops : List Expression) : String :=
  "\x7b\n" ++ joinNewline (decompileEach ops) ++ "\n\x7d"

def Expression.decompile_cond : Conditions → String
  | .And a b =>
      Expression.decompile a ++ " && " ++ Expression.decompile b
  | .Between a b c =>
      Expression.decompile a ++ " between " ++ Expression.decompile b ++
        " and " ++ Expression.decompile c
  | .Betwixt a b c =>
      Expression.decompile a ++ " betwixt " ++ Expression.decompile b ++
        " and " ++ Expression.decompile c
  | .Contains a b =>
      Expression.decompile a ++ " contains " ++ Expression.decompile b
  | .Equal a b =>
      Expression.decompile a ++ " == " ++ Expression.decompile b
  | .False => "false"
  | .GreaterThan a b =>
      Expression.decompile a ++ " > " ++ Expression.decompile b
  | .GreaterOrEqual a b =>
      Expression.decompile a ++ " >= " ++ Expression.decompile b
  | .LessThan a b =>
      Expression.decompile a ++ " < " ++ Expression.decompile b
  | .LessOrEqual a b =>
      Expression.decompile a ++ " <= " ++ Expression.decompile b
  | .Like a b =>
      Expression.decompile a ++ " like " ++ Expression.decompile b
  | .Not a => "!" ++ Expression.decompile a
  | .NotEqual a b =>
      Expression.decompile a ++ " != " ++ Expression.decompile b
  | .Or a b =>
      Expression.decompile a ++ " || " ++ Expression.decompile b
  | .True => "true"

def decompileDirectives : Directives → String
  | .MustAck a => "[+] " ++ Expression.decompile a
  | .MustDie a => "[!] " ++ Expression.decompile a
  | .MustIgnoreAck a => "[~] " ++ Expression.decompile a
  | .MustNotAck a => "[-] " ++ Expression.decompile a

def decompileLimit : Option Expression → String
  | some x => " limit " ++ Expression.decompile x
  | none => ""

def decompileOpt : Option Expression → String
  | some x => Expression.decompile x
  | none => ""

def decompileCondOpt : Option Conditions → String
  | some c => Expression.decompile_cond c
  | none => ""

def decompileModifications : Mutations → String
  | .Append path source =>
      "append " ++ Expression.decompile path ++ " " ++
        Expression.decompile source
  | .Create path entity =>
      match entity with
      | .IndexEntity columns =>
          "create index " ++ Expression.decompile path ++ " [" ++
            joinComma (decompileEach columns) ++ "]"
      | .TableEntity columns _ _ =>
          "create table " ++ Expression.decompile path ++ " (" ++
            joinComma (paramCodeList columns) ++ ")"
      | .TableFnEntity fx =>
          "create table " ++ Expression.decompile path ++ " fn(" ++
            Expression.decompile fx ++ ")"
  | .Declare entity =>
      match entity with
      | .IndexEntity columns =>
          "index [" ++ joinComma (decompileEach columns) ++ "]"
      | .TableEntity columns _ _ =>
          "table(" ++ joinComma (paramCodeList columns) ++ ")"
      | .TableFnEntity fx => "table fn(" ++ Expression.decompile fx ++ ")"
  | .Drop target =>
      match target with
      | .IndexTarget path => "drop index " ++ Expression.decompile path
      | .TableTarget path => "drop table " ++ Expression.decompile path
  | .Delete path condition limit =>
      "delete from " ++ Expression.decompile path ++ " where " ++
        decompileCondOpt condition ++ decompileOpt limit
  | .IntoNs a b =>
      Expression.decompile a ++ " ~> " ++ Expression.decompile b
  | .Overwrite path source condition limit =>
      "overwrite " ++ Expression.decompile path ++ " " ++
        Expression.decompile source ++
        (match condition with
          | some e => " where " ++ Expression.decompile_cond e
          | none => "") ++
        (match limit with
          | some e => " limit " ++ Expression.decompile e
          | none => "")
  | .Truncate path limit =>
      "truncate " ++ Expression.decompile path ++ decompileLimit limit
  | .Undelete path condition limit =>
      "undelete from " ++ Expression.decompile path ++ " where " ++
        decompileCondOpt condition ++ decompileOpt limit
  | .Update path source condition limit =>
      "update " ++ Expression.decompile path ++ " " ++
        Expression.decompile source ++ " where " ++
        decompileCondOpt condition ++
        (match limit with
          | some e => " limit " ++ Expression.decompile e
          | none => "")

def decompileQueryables : Queryables → String
  | .Limit a b =>
      Expression.decompile a ++ " limit " ++ Expression.decompile b
  | .Where from_src condition =>
      Expression.decompile from_src ++ " where " ++
        Expression.decompile_cond condition
  | .Select fields from_src condition group_by having order_by limit =>
      "select " ++ joinComma (decompileEach fields) ++
        (match from_src with
          | some e => " from " ++ Expression.decompile e
          | none => "") ++
        (match condition with
          | some c => " where " ++ Expression.decompile_cond c
          | none => "") ++
        (match limit with
          | some e => " limit " ++ Expression.decompile e
          | none => "") ++
        (match group_by with
          | some items => " group by " ++ joinComma (decompileEach items)
          | none => "") ++
        (match having with
          | some e => " having " ++ Expression.decompile e
          | none => "") ++
        (match order_by with
          | some e => " order by " ++ joinComma (decompileEach e)
          | none => "")

end

/-- `Expression::to_code` (expression.rs:568-570). -/
def Expression.to_code (e : Expression) : String := Expression.decompile e

/-- `Conditions::to_code` (expression.rs:56-59). -/
def Conditions.to_code (c : Conditions) : String := Expression.decompile_cond c

/-! ## `Expression::to_pure` (expression.rs:572-641)

The partial evaluator.  Failures carry `Errors` (the `std::io::Result`
channel of the source); `throw(TypeMismatch(ConstantValueExpected(code)))`
is `Except.error (.TypeMismatch (.ConstantValueExpected code))`. -/

/-- The match body of the `ElementAt` arm of `to_pure`
(expression.rs:592-612): index with the value of `b`, then inspect the
collection value of `a`. -/
def elementAtOf (bv av : TypedValue) : TypedValue :=
  let index := bv.to_usize
  match av with
  | .ArrayValue arr => arr.getD index .Undefined
  | .ErrorValue err => .ErrorValue err
  | .Null => .Null
  | .Structured s =>
      if index ≥ s.get_values.length then .Undefined
      else s.get_values.getD index .Undefined
  | .TableValue df =>
      (match df.read_one index with
        | some row => .Structured (.Firm row df.get_columns)
        | none => .Undefined)
  | .Undefined => .Undefined
  | z => .ErrorValue (.TypeMismatch
      (.UnsupportedType (.VaryingType []) z.get_type))

mutual

def Expression.to_pure : Expression → Except Errors TypedValue
  | .AsValue _ expr => expr.to_pure
  | .ArrayExpression items => purify items
  | .BitwiseAnd a b => do
      pure (TypedValue.bitand (← a.to_pure) (← b.to_pure))
  | .BitwiseOr a b => do
      pure (TypedValue.bitor (← a.to_pure) (← b.to_pure))
  | .BitwiseXor a b => do
      pure (TypedValue.bitxor (← a.to_pure) (← b.to_pure))
  | .BitwiseShiftLeft a b => do
      pure (TypedValue.shl (← a.to_pure) (← b.to_pure))
  | .BitwiseShiftRight a b => do
      pure (TypedValue.shr (← a.to_pure) (← b.to_pure))
  | .Condition kind =>
      match kind with
      | .And a b => do
          let av ← a.to_pure
          if av.is_true then do
            let bv ← b.to_pure
            pure (.Boolean bv.is_true)
          else pure (.Boolean false)
      | .False => pure (.Boolean false)
      | .Or a b => do
          let av ← a.to_pure
          if av.is_true then pure (.Boolean true)
          else do
            let bv ← b.to_pure
            pure (.Boolean bv.is_true)
      | .True => pure (.Boolean true)
      | z => Except.error (.TypeMismatch (.ConstantValueExpected z.to_code))
  | .Divide a b => do
      pure (TypedValue.div (← a.to_pure) (← b.to_pure))
  | .ElementAt a b => do
      pure (elementAtOf (← b.to_pure) (← a.to_pure))
  | .Factorial expr => (expr.to_pure).map (fun v => v.factorial)
  | .JSONExpression items => do
      pure (.Structured (.Soft (← purifyKV items)))
  | .Literal value => pure value
  | .Minus a b => do
      pure (TypedValue.sub (← a.to_pure) (← b.to_pure))
  | .Modulo a b => do
      pure (TypedValue.rem (← a.to_pure) (← b.to_pure))
  | .Multiply a b => do
      pure (TypedValue.mul (← a.to_pure) (← b.to_pure))
  | .Neg expr => (expr.to_pure).map (fun v => v.neg)
  | .Plus a b => do
      pure (TypedValue.add (← a.to_pure) (← b.to_pure))
  | .Pow a b => do
      pure ((TypedValue.pow (← a.to_pure) (← b.to_pure)).getD .Undefined)
  | .Range a b => do
      pure (.ArrayValue (TypedValue.express_range (← a.to_pure) (← b.to_pure)
        (.Number (.I64Value 1))))
  | z => Except.error (.TypeMismatch (.ConstantValueExpected z.to_code))

/-- `purify` (expression.rs:572-578), split into the element loop and the
`ArrayValue` wrapper. -/
def purify (items : List Expression) : Except Errors TypedValue := do
  pure (.ArrayValue (← purifyList items))

def purifyList : List Expression → Except Errors (List TypedValue)
  | [] => pure []
  | e :: es => do
      pure ((← e.to_pure) :: (← purifyList es))

def purifyKV : List (String × Expression) →
    Except Errors (List (String × TypedValue))
  | [] => pure []
  | (name, e) :: es => do
      pure ((name, ← e.to_pure) :: (← purifyKV es))

end

/-! The claim-side characterization of the syntactically pure
expressions: side-effect-free arithmetic, bitwise operations, the
boolean connectives `And`/`Or`/`True`/`False`, ranges, array/JSON
literals with pure elements, factorial, `AsValue`, `ElementAt` and
literals.  `to_pure` folds all of these; because `And`/`Or`
short-circuit, it also folds some expressions outside this fragment
(an impure right operand that is never reached). -/

mutual

def pureForm : Expression → Bool
  | .AsValue _ expr => pureForm expr
  | .ArrayExpression items => pureFormList items
  | .BitwiseAnd a b => pureForm a && pureForm b
  | .BitwiseOr a b => pureForm a && pureForm b
  | .BitwiseXor a b => pureForm a && pureForm b
  | .BitwiseShiftLeft a b => pureForm a && pureForm b
  | .BitwiseShiftRight a b => pureForm a && pureForm b
  | .Condition kind =>
      match kind with
      | .And a b => pureForm a && pureForm b
      | .False => true
      | .Or a b => pureForm a && pureForm b
      | .True => true
      | _ => false
  | .Divide a b => pureForm a && pureForm b
  | .ElementAt a b => pureForm b && pureForm a
  | .Factorial expr => pureForm expr
  | .JSONExpression items => pureFormKV items
  | .Literal _ => true
  | .Minus a b => pureForm a && pureForm b
  | .Modulo a b => pureForm a && pureForm b
  | .Multiply a b => pureForm a && pureForm b
  | .Neg expr => pureForm expr
  | .Plus a b => pureForm a && pureForm b
  | .Pow a b => pureForm a && pureForm b
  | .Range a b => pureForm a && pureForm b
  | _ => false

def pureFormList : List Expression → Bool
  | [] => true
  | e :: es => pureForm e && pureFormList es

def pureFormKV : List (String × Expression) → Bool
  | [] => true
  | (_, e) :: es => pureForm e && pureFormKV es

end

/-! ## Claim C6: the shape of `to_pure` successes and failures

Because the source folds `And`/`Or` with short-circuiting `&&`/`||`
(expression.rs:592/595), `to_pure` can succeed on expressions whose
right operand is impure; the syntactically pure fragment `pureForm` is
therefore a *sufficient* condition for success, not an equivalent one. -/

/-- `r` succeeds whenever `p` holds, and every failure is a
`ConstantValueExpected` type mismatch. -/
def SpecShape {α : Type} (r : Except Errors α) (p : Bool) : Prop :=
  (p = true → ∃ v, r = Except.ok v) ∧
  (∀ err, r = Except.error err →
    ∃ s, err = Errors.TypeMismatch (.ConstantValueExpected s))

theorem okShape {α : Type} (v : α) :
    SpecShape (Except.ok v : Except Errors α) true :=
  ⟨fun _ => ⟨v, rfl⟩, fun _ herr => Except.noConfusion herr⟩

theorem errShape {α : Type} (s : String) :
    SpecShape (Except.error (Errors.TypeMismatch
      (.ConstantValueExpected s)) : Except Errors α) false := by
  constructor
  · intro h
    exact absurd h (by simp)
  · intro err herr
    refine ⟨s, ?_⟩
    injection herr with h
    exact h.symm

theorem bind_ok {α β : Type} (a : α) (f : α → Except Errors β) :
    (Except.ok a : Except Errors α) >>= f = f a := rfl

theorem bindShape {α β γ : Type} {x : Except Errors α} {y : Except Errors β}
    {px py : Bool} (hx : SpecShape x px) (hy : SpecShape y py)
    (k : α → β → γ) :
    SpecShape (do pure (k (← x) (← y)) : Except Errors γ) (px && py) := by
  constructor
  · intro hp
    rw [Bool.and_eq_true] at hp
    obtain ⟨va, hva⟩ := hx.1 hp.1
    obtain ⟨vb, hvb⟩ := hy.1 hp.2
    refine ⟨k va vb, ?_⟩
    rw [hva, bind_ok, hvb, bind_ok]
    rfl
  · intro err herr
    cases x with
    | error ea =>
      have h2 : (Except.error ea : Except Errors γ) = Except.error err := herr
      injection h2 with h
      exact h ▸ hx.2 ea rfl
    | ok va =>
      rw [bind_ok] at herr
      cases y with
      | error eb =>
        have h2 : (Except.error eb : Except Errors γ) = Except.error err :=
          herr
        injection h2 with h
        exact h ▸ hy.2 eb rfl
      | ok vb =>
        have h2 : (Except.ok (k va vb) : Except Errors γ) =
            Except.error err := herr
        exact Except.noConfusion h2

theorem mapShape {α β : Type} {x : Except Errors α} {px : Bool}
    (hx : SpecShape x px) (g : α → β) :
    SpecShape (Except.map g x) px := by
  constructor
  · intro hp
    obtain ⟨va, hva⟩ := hx.1 hp
    exact ⟨g va, by rw [hva]; rfl⟩
  · intro err herr
    cases x with
    | error ea =>
      have h2 : (Except.error ea : Except Errors β) = Except.error err := herr
      injection h2 with h
      exact h ▸ hx.2 ea rfl
    | ok va =>
      have h2 : (Except.ok (g va) : Except Errors β) = Except.error err :=
        herr
      exact Except.noConfusion h2

theorem bindPureShape {α β : Type} {x : Except Errors α} {px : Bool}
    (hx : SpecShape x px) (g : α → β) :
    SpecShape (do pure (g (← x)) : Except Errors β) px := by
  constructor
  · intro hp
    obtain ⟨va, hva⟩ := hx.1 hp
    refine ⟨g va, ?_⟩
    rw [hva, bind_ok]
    rfl
  · intro err herr
    cases x with
    | error ea =>
      have h2 : (Except.error ea : Except Errors β) = Except.error err := herr
      injection h2 with h
      exact h ▸ hx.2 ea rfl
    | ok va =>
      have h2 : (Except.ok (g va) : Except Errors β) = Except.error err :=
        herr
      exact Except.noConfusion h2

/-- The short-circuiting `And` arm (expression.rs:591-592): the right
operand is evaluated only when the left one is true. -/
theorem andShape {x y : Except Errors TypedValue} {px py : Bool}
    (hx : SpecShape x px) (hy : SpecShape y py) :
    SpecShape (do
      let av ← x
      if av.is_true then do
        let bv ← y
        pure (TypedValue.Boolean bv.is_true)
      else pure (TypedValue.Boolean false) : Except Errors TypedValue)
      (px && py) := by
  constructor
  · intro hp
    rw [Bool.and_eq_true] at hp
    obtain ⟨va, hva⟩ := hx.1 hp.1
    obtain ⟨vb, hvb⟩ := hy.1 hp.2
    rw [hva, bind_ok]
    cases hvt : va.is_true
    · exact ⟨TypedValue.Boolean false, rfl⟩
    · refine ⟨TypedValue.Boolean vb.is_true, ?_⟩
      show (y >>= fun bv => pure (TypedValue.Boolean bv.is_true) :
        Except Errors TypedValue) = _
      rw [hvb, bind_ok]
      rfl
  · intro err herr
    cases x with
    | error ea =>
      have h2 : (Except.error ea : Except Errors TypedValue) =
          Except.error err := herr
      injection h2 with h
      exact h ▸ hx.2 ea rfl
    | ok va =>
      rw [bind_ok] at herr
      cases hvt : va.is_true
      · rw [hvt] at herr
        have h2 : (Except.ok (TypedValue.Boolean false) :
            Except Errors TypedValue) = Except.error err := herr
        exact Except.noConfusion h2
      · rw [hvt] at herr
        have h3 : (y >>= fun bv => pure (TypedValue.Boolean bv.is_true) :
            Except Errors TypedValue) = Except.error err := herr
        cases y with
        | error eb =>
          have h2 : (Except.error eb : Except Errors TypedValue) =
              Except.error err := h3
          injection h2 with h
          exact h ▸ hy.2 eb rfl
        | ok vb =>
          have h2 : (Except.ok (TypedValue.Boolean vb.is_true) :
              Except Errors TypedValue) = Except.error err := h3
          exact Except.noConfusion h2

/-- The short-circuiting `Or` arm (expression.rs:594-595): the right
operand is evaluated only when the left one is not true. -/
theorem orShape {x y : Except Errors TypedValue} {px py : Bool}
    (hx : SpecShape x px) (hy : SpecShape y py) :
    SpecShape (do
      let av ← x
      if av.is_true then pure (TypedValue.Boolean true)
      else do
        let bv ← y
        pure (TypedValue.Boolean bv.is_true) : Except Errors TypedValue)
      (px && py) := by
  constructor
  · intro hp
    rw [Bool.and_eq_true] at hp
    obtain ⟨va, hva⟩ := hx.1 hp.1
    obtain ⟨vb, hvb⟩ := hy.1 hp.2
    rw [hva, bind_ok]
    cases hvt : va.is_true
    · refine ⟨TypedValue.Boolean vb.is_true, ?_⟩
      show (y >>= fun bv => pure (TypedValue.Boolean bv.is_true) :
        Except Errors TypedValue) = _
      rw [hvb, bind_ok]
      rfl
    · exact ⟨TypedValue.Boolean true, rfl⟩
  · intro err herr
    cases x with
    | error ea =>
      have h2 : (Except.error ea : Except Errors TypedValue) =
          Except.error err := herr
      injection h2 with h
      exact h ▸ hx.2 ea rfl
    | ok va =>
      rw [bind_ok] at herr
      cases hvt : va.is_true
      · rw [hvt] at herr
        have h3 : (y >>= fun bv => pure (TypedValue.Boolean bv.is_true) :
            Except Errors TypedValue) = Except.error err := herr
        cases y with
        | error eb =>
          have h2 : (Except.error eb : Except Errors TypedValue) =
              Except.error err := h3
          injection h2 with h
          exact h ▸ hy.2 eb rfl
        | ok vb =>
          have h2 : (Except.ok (TypedValue.Boolean vb.is_true) :
              Except Errors TypedValue) = Except.error err := h3
          exact Except.noConfusion h2
      · rw [hvt] at herr
        have h2 : (Except.ok (TypedValue.Boolean true) :
            Except Errors TypedValue) = Except.error err := herr
        exact Except.noConfusion h2

set_option maxHeartbeats 3200000 in
mutual

theorem to_pure_spec (e : Expression) :
    SpecShape e.to_pure (pureForm e) := by
  cases e with
  | ArrayExpression items =>
      simp only [Expression.to_pure, pureForm, purify]
      exact bindPureShape (to_pure_spec_list items) TypedValue.ArrayValue
  | AsValue name expr =>
      simp only [Expression.to_pure, pureForm]
      exact to_pure_spec expr
  | BitwiseAnd a b =>
      simp only [Expression.to_pure, pureForm]
      exact bindShape (to_pure_spec a) (to_pure_spec b) TypedValue.bitand
  | BitwiseOr a b =>
      simp only [Expression.to_pure, pureForm]
      exact bindShape (to_pure_spec a) (to_pure_spec b) TypedValue.bitor
  | BitwiseShiftLeft a b =>
      simp only [Expression.to_pure, pureForm]
      exact bindShape (to_pure_spec a) (to_pure_spec b) TypedValue.shl
  | BitwiseShiftRight a b =>
      simp only [Expression.to_pure, pureForm]
      exact bindShape (to_pure_spec a) (to_pure_spec b) TypedValue.shr
  | BitwiseXor a b =>
      simp only [Expression.to_pure, pureForm]
      exact bindShape (to_pure_spec a) (to_pure_spec b) TypedValue.bitxor
  | CodeBlock ops =>
      simp only [Expression.to_pure, pureForm]
      exact errShape _
  | Condition kind =>
      cases kind with
      | And a b =>
          simp only [Expression.to_pure, pureForm]
          exact andShape (to_pure_spec a) (to_pure_spec b)
      | Between a b c =>
          simp only [Expression.to_pure, pureForm]
          exact errShape _
      | Betwixt a b c =>
          simp only [Expression.to_pure, pureForm]
          exact errShape _
      | Contains a b =>
          simp only [Expression.to_pure, pureForm]
          exact errShape _
      | Equal a b =>
          simp only [Expression.to_pure, pureForm]
          exact errShape _
      | False =>
          simp only [Expression.to_pure, pureForm]
          exact okShape (TypedValue.Boolean false)
      | GreaterOrEqual a b =>
          simp only [Expression.to_pure, pureForm]
          exact errShape _
      | GreaterThan a b =>
          simp only [Expression.to_pure, pureForm]
          exact errShape _
      | LessOrEqual a b =>
          simp only [Expression.to_pure, pureForm]
          exact errShape _
      | LessThan a b =>
          simp only [Expression.to_pure, pureForm]
          exact errShape _
      | Like a b =>
          simp only [Expression.to_pure, pureForm]
          exact errShape _
      | Not a =>
          simp only [Expression.to_pure, pureForm]
          exact errShape _
      | NotEqual a b =>
          simp only [Expression.to_pure, pureForm]
          exact errShape _
      | Or a b =>
          simp only [Expression.to_pure, pureForm]
          exact orShape (to_pure_spec a) (to_pure_spec b)
      | True =>
          simp only [Expression.to_pure, pureForm]
          exact okShape (TypedValue.Boolean true)
  | DatabaseOp op =>
      simp only [Expression.to_pure, pureForm]
      exact errShape _
  | Directive d =>
      simp only [Expression.to_pure, pureForm]
      exact errShape _
  | Divide a b =>
      simp only [Expression.to_pure, pureForm]
      exact bindShape (to_pure_spec a) (to_pure_spec b) TypedValue.div
  | ElementAt a b =>
      simp only [Expression.to_pure, pureForm]
      exact bindShape (to_pure_spec b) (to_pure_spec a) elementAtOf
  | Extraction a b =>
      simp only [Expression.to_pure, pureForm]
      exact errShape _
  | ExtractPostfix a b =>
      simp only [Expression.to_pure, pureForm]
      exact errShape _
  | Factorial expr =>
      simp only [Expression.to_pure, pureForm]
      exact mapShape (to_pure_spec expr) (fun v => v.factorial)
  | Feature title scenarios =>
      simp only [Expression.to_pure, pureForm]
      exact errShape _
  | FnExpression params body returns =>
      simp only [Expression.to_pure, pureForm]
      exact errShape _
  | ForEach name src ops =>
      simp only [Expression.to_pure, pureForm]
      exact errShape _
  | From a =>
      simp only [Expression.to_pure, pureForm]
      exact errShape _
  | FunctionCall fx args =>
      simp only [Expression.to_pure, pureForm]
      exact errShape _
  | HTTP method url body headers multipart =>
      simp only [Expression.to_pure, pureForm]
      exact errShape _
  | If condition a b =>
      simp only [Expression.to_pure, pureForm]
      exact errShape _
  | Import ops =>
      simp only [Expression.to_pure, pureForm]
      exact errShape _
  | Include path =>
      simp only [Expression.to_pure, pureForm]
      exact errShape _
  | JSONExpression items =>
      simp only [Expression.to_pure, pureForm]
      exact bindPureShape (to_pure_spec_kv items)
        (fun kvs => TypedValue.Structured (Structures.Soft kvs))
  | Literal value =>
      simp only [Expression.to_pure, pureForm]
      exact okShape value
  | Minus a b =>
      simp only [Expression.to_pure, pureForm]
      exact bindShape (to_pure_spec a) (to_pure_spec b) TypedValue.sub
  | Module name ops =>
      simp only [Expression.to_pure, pureForm]
      exact errShape _
  | Modulo a b =>
      simp only [Expression.to_pure, pureForm]
      exact bindShape (to_pure_spec a) (to_pure_spec b) TypedValue.rem
  | Multiply a b =>
      simp only [Expression.to_pure, pureForm]
      exact bindShape (to_pure_spec a) (to_pure_spec b) TypedValue.mul
  | Neg a =>
      simp only [Expression.to_pure, pureForm]
      exact mapShape (to_pure_spec a) (fun v => v.neg)
  | Ns a =>
      simp only [Expression.to_pure, pureForm]
      exact errShape _
  | Parameters params =>
      simp only [Expression.to_pure, pureForm]
      exact errShape _
  | Plus a b =>
      simp only [Expression.to_pure, pureForm]
      exact bindShape (to_pure_spec a) (to_pure_spec b) TypedValue.add
  | PlusPlus a b =>
      simp only [Expression.to_pure, pureForm]
      exact errShape _
  | Pow a b =>
      simp only [Expression.to_pure, pureForm]
      exact bindShape (to_pure_spec a) (to_pure_spec b)
        (fun x y => (TypedValue.pow x y).getD TypedValue.Undefined)
  | Range a b =>
      simp only [Expression.to_pure, pureForm]
      exact bindShape (to_pure_spec a) (to_pure_spec b)
        (fun x y => TypedValue.ArrayValue (TypedValue.express_range x y
          (TypedValue.Number (Numbers.I64Value 1))))
  | Return items =>
      simp only [Expression.to_pure, pureForm]
      exact errShape _
  | Scenario title verifications =>
      simp only [Expression.to_pure, pureForm]
      exact errShape _
  | SetVariable name value =>
      simp only [Expression.to_pure, pureForm]
      exact errShape _
  | SetVariables name value =>
      simp only [Expression.to_pure, pureForm]
      exact errShape _
  | TupleExpression args =>
      simp only [Expression.to_pure, pureForm]
      exact errShape _
  | Variable name =>
      simp only [Expression.to_pure, pureForm]
      exact errShape _
  | Via expr =>
      simp only [Expression.to_pure, pureForm]
      exact errShape _
  | While condition code =>
      simp only [Expression.to_pure, pureForm]
      exact errShape _
termination_by sizeOf e

theorem to_pure_spec_list (items : List Expression) :
    SpecShape (purifyList items) (pureFormList items) := by
  cases items with
  | nil =>
      simp only [purifyList, pureFormList]
      exact okShape []
  | cons e es =>
      simp only [purifyList, pureFormList]
      exact bindShape (to_pure_spec e) (to_pure_spec_list es) List.cons
termination_by sizeOf items

theorem to_pure_spec_kv (items : List (String × Expression)) :
    SpecShape (purifyKV items) (pureFormKV items) := by
  cases items with
  | nil =>
      simp only [purifyKV, pureFormKV]
      exact okShape []
  | cons kv es =>
      obtain ⟨name, e⟩ := kv
      simp only [purifyKV, pureFormKV]
      exact bindShape (to_pure_spec e) (to_pure_spec_kv es)
        (fun v vs => (name, v) :: vs)
termination_by sizeOf items

end

/-- **C6 counterexample.** The claim errs in both directions.
(1)/(2): `Equal(true, true)` and the empty tuple — comparisons of pure
sub-expressions and tuple literals, which the claim lists as pure —
fail with `ConstantValueExpected`: comparisons other than
`And`/`Or`/`True`/`False` fall to the catch-all of the `Condition` arm,
and `TupleExpression` falls to the catch-all of `to_pure` itself.
(3): conversely, `And(false, x)` contains the impure variable `x`, yet
`to_pure` succeeds with `Ok(Boolean(false))` because the source
short-circuits `&&` (expression.rs:592) and never evaluates `x` — so
not every expression outside the pure fragment fails. -/
theorem to_pure_comparison_counterexample :
    Expression.to_pure (.Condition (.Equal (.Literal (.Boolean true))
        (.Literal (.Boolean true)))) =
      Except.error (Errors.TypeMismatch
        (.ConstantValueExpected "true == true")) ∧
    Expression.to_pure (.TupleExpression []) =
      Except.error (Errors.TypeMismatch (.ConstantValueExpected "()")) ∧
    (Expression.to_pure (.Condition (.And (.Literal (.Boolean false))
        (.Variable "x"))) = Except.ok (.Boolean false) ∧
      pureForm (.Condition (.And (.Literal (.Boolean false))
        (.Variable "x"))) = false) := by
  have hb : Expression.decompile (.Literal (.Boolean true)) = "true" := by
    simp [Expression.decompile, TypedValue.to_code]
  refine ⟨?_, ?_, ?_, ?_⟩
  · simp only [Expression.to_pure, Conditions.to_code,
      Expression.decompile_cond, hb]
    rfl
  · simp only [Expression.to_pure, Expression.to_code, Expression.decompile,
      decompileEach, joinComma]
    rfl
  · simp only [Expression.to_pure]
    rfl
  · simp [pureForm]

/-- **C6.** `to_pure` is a partial evaluator: it returns a value for
every expression in the pure fragment `pureForm` — side-effect-free
arithmetic (`Plus`, `Minus`, `Multiply`, `Divide`, `Modulo`, `Pow`,
`Neg`), bitwise operations, the boolean connectives
`And`/`Or`/`True`/`False`, ranges, array and JSON literals whose
elements are pure, `Factorial`, `AsValue`, `ElementAt` and literals —
and every failure it produces is a `ConstantValueExpected`
type-mismatch error.  The claim fails in both converse directions:
comparisons (`Equal`, `<`, …) and tuple literals, which it lists as
pure, are not folded, while short-circuited `And`/`Or` lets `to_pure`
succeed on some expressions with impure right operands (see the
counterexample). -/
theorem to_pure_partial_evaluator (e : Expression) :
    (pureForm e = true → ∃ v, Expression.to_pure e = Except.ok v) ∧
    (∀ err, Expression.to_pure e = Except.error err →
      ∃ s, err = Errors.TypeMismatch (.ConstantValueExpected s)) :=
  to_pure_spec e

theorem to_pure_partial_evaluator_witness :
    (∃ v, Expression.to_pure (.Plus (.Literal (.Number (.I64Value 2)))
        (.Literal (.Number (.I64Value 3)))) = Except.ok v) ∧
    (∃ s, Errors.TypeMismatch (TypeMismatchErrors.ConstantValueExpected "x") =
      Errors.TypeMismatch (.ConstantValueExpected s)) :=
  ⟨(to_pure_partial_evaluator (.Plus (.Literal (.Number (.I64Value 2)))
      (.Literal (.Number (.I64Value 3))))).1 (by simp [pureForm]),
   (to_pure_partial_evaluator (.Variable "x")).2
      (Errors.TypeMismatch (.ConstantValueExpected "x"))
      (by simp only [Expression.to_pure, Expression.to_code,
        Expression.decompile])⟩

/-! ## `DataType::decipher_type` (data_types.rs:61-176) -/

/-- Modelled from the spec: `errors.rs` is absent from `src/`.  Spec
section 7 describes the error kinds; `Exact(message)` is an opaque
wrapped lower-layer error.  The rendering below is a plain readable
form of each kind; no theorem depends on this text. -/
def TypeMismatchErrors.to_string : TypeMismatchErrors → String
  | .ArgumentsMismatched expected actual =>
      "mismatched arguments: expected " ++ toString expected ++
        ", got " ++ toString actual
  | .ConstantValueExpected code => "constant value expected: " ++ code
  | .StringExpected got => "string expected: " ++ got
  | .UnrecognizedTypeName name => "unrecognized type name: " ++ name
  | .UnsupportedType expected actual =>
      "unsupported type: expected " ++ expected.to_code ++
        ", got " ++ actual.to_code

/-- Modelled from the spec (see `TypeMismatchErrors.to_string`). -/
def Errors.to_string : Errors → String
  | .Empty => ""
  | .Exact message => message
  | .IllegalOperator _ => "illegal operator"
  | .SyntaxFailure code => "syntax error near: " ++ code
  | .TypeMismatch err => err.to_string

/-- Modelled: the Debug rendering used by the catch-all of
`decode_model` (data_types.rs:172).  Only the `Syntax` error
constructor, never this text, matters to the theorems; the decompiled
form stands in for the derived Debug string. -/
def debugFormat (e : Expression) : String := Expression.to_code e

/-- `expect_size` (data_types.rs:62-69). -/
def expect_size (args : List Expression) (f : Nat → DataType) :
    Except Errors DataType :=
  match args with
  | [] => pure (f 0)
  | [.Literal (.Number n)] => pure (f n.to_usize)
  | [other] => Except.error (.SyntaxFailure other.to_code)
  | other => Except.error (.TypeMismatch (.ArgumentsMismatched 1 other.length))

/-- `decode_model_variable` (data_types.rs:126-153). -/
def decode_model_variable (name : String) : Except Errors DataType :=
  match name with
  | "Ack" => pure (.NumberType .AckKind)
  | "Boolean" => pure .BooleanType
  | "Date" => pure (.NumberType .DateKind)
  | "Enum" => pure (.EnumType [])
  | "Error" => pure .ErrorType
  | "f32" => pure (.NumberType .F32Kind)
  | "f64" => pure (.NumberType .F64Kind)
  | "Fn" => pure (.FunctionType [] .Indeterminate)
  | "i8" => pure (.NumberType .I8Kind)
  | "i16" => pure (.NumberType .I16Kind)
  | "i32" => pure (.NumberType .I32Kind)
  | "i64" => pure (.NumberType .I64Kind)
  | "i128" => pure (.NumberType .I128Kind)
  | "RowId" => pure (.NumberType .RowIdKind)
  | "RowsAffected" => pure (.NumberType .RowsAffectedKind)
  | "String" => pure (.StringType 0)
  | "Struct" => pure (.StructureType [])
  | "Table" => pure (.TableType [] 0)
  | "u8" => pure (.NumberType .U8Kind)
  | "u16" => pure (.NumberType .U16Kind)
  | "u32" => pure (.NumberType .U32Kind)
  | "u64" => pure (.NumberType .U64Kind)
  | "u128" => pure (.NumberType .U128Kind)
  | type_name => Except.error (.TypeMismatch (.UnrecognizedTypeName type_name))

mutual

/-- `decode_model` (data_types.rs:154-174). -/
def decode_model : Expression → Except Errors DataType
  | .ArrayExpression params => decode_model_array params
  | .FnExpression params _ returns => pure (.FunctionType params returns)
  | .FunctionCall fx args => decode_model_function_call fx args
  | .Literal (.Number .Ack) => pure (.NumberType .AckKind)
  | .Literal (.Structured s) => pure (.StructureType s.get_parameters)
  | .TupleExpression params => decode_model_tuple params
  | .Variable name => decode_model_variable name
  | other => Except.error (.SyntaxFailure (debugFormat other))

/-- `decode_model_function_call` (data_types.rs:99-115). -/
def decode_model_function_call (fx : Expression) (args : List Expression) :
    Except Errors DataType :=
  match fx with
  | .Variable name =>
      match name with
      | "Array" => expect_size args DataType.ArrayType
      | "ASCII" => expect_size args DataType.ASCIIType
      | "Binary" => expect_size args DataType.BinaryType
      | "Enum" => expect_params args DataType.EnumType
      | "fn" => expect_params args
          (fun params => .FunctionType params .Indeterminate)
      | "String" => expect_size args DataType.StringType
      | "Struct" => expect_params args DataType.StructureType
      | "Table" => expect_params args (fun params => .TableType params 0)
      | type_name => Except.error (.SyntaxFailure type_name)
  | other => Except.error (.SyntaxFailure other.to_code)

/-- `decode_model_array` (data_types.rs:89-98). -/
def decode_model_array (items : List Expression) : Except Errors DataType :=
  (decodeModelList items).map (fun kinds => DataType.ArrayType kinds.length)

/-- `decode_model_tuple` (data_types.rs:116-125). -/
def decode_model_tuple (items : List Expression) : Except Errors DataType :=
  (decodeModelList items).map DataType.TupleType

/-- The shared element loop of `decode_model_array` and
`decode_model_tuple`: each element failure is wrapped as
`Exact(err.to_string())` where it occurs. -/
def decodeModelList : List Expression → Except Errors (List DataType)
  | [] => pure []
  | item :: rest =>
      match decode_model item with
      | .ok kind =>
          match decodeModelList rest with
          | .ok kinds => pure (kind :: kinds)
          | .error err2 => Except.error err2
      | .error err => Except.error (.Exact err.to_string)

/-- The parameter loop of `expect_params` (data_types.rs:77-86). -/
def expect_params_loop : List Expression → Except Errors (List Parameter)
  | [] => pure []
  | arg :: rest =>
      match arg with
      | .AsValue name model =>
          match decode_model model with
          | .ok dt =>
              match expect_params_loop rest with
              | .ok ps => pure (Parameter.new name dt :: ps)
              | .error e => Except.error e
          | .error e => Except.error e
      | .SetVariable name expr =>
          match expr.to_pure with
          | .ok v =>
              match expect_params_loop rest with
              | .ok ps => pure (Parameter.from_tuple name v :: ps)
              | .error e => Except.error e
          | .error e => Except.error e
      | .Variable name =>
          match expect_params_loop rest with
          | .ok ps => pure (Parameter.build name :: ps)
          | .error e => Except.error e
      | other => Except.error (.SyntaxFailure other.to_code)

/-- `expect_params` (data_types.rs:76-88). -/
def expect_params (args : List Expression) (f : List Parameter → DataType) :
    Except Errors DataType :=
  (expect_params_loop args).map f

end

/-- `DataType::decipher_type` (data_types.rs:61, 175). -/
def DataType.decipher_type (model : Expression) : Except Errors DataType :=
  decode_model model

/-- The bare identifiers `decode_model_variable` recognizes
(data_types.rs:128-150). -/
def knownBareTypeNames : List String :=
  ["Ack", "Boolean", "Date", "Enum", "Error", "f32", "f64", "Fn",
   "i8", "i16", "i32", "i64", "i128", "RowId", "RowsAffected",
   "String", "Struct", "Table", "u8", "u16", "u32", "u64", "u128"]

/-- The call names `decode_model_function_call` recognizes
(data_types.rs:103-110). -/
def knownCallTypeNames : List String :=
  ["Array", "ASCII", "Binary", "Enum", "fn", "String", "Struct", "Table"]

/-- **C7 counterexample.** The claim says every unrecognized type name
fails with `UnrecognizedTypeName`.  An unknown name in call position
(`Foo(...)`) instead fails with a `Syntax` error
(data_types.rs:111); only bare identifiers produce
`UnrecognizedTypeName`. -/
theorem decipher_unknown_call_counterexample :
    DataType.decipher_type (.FunctionCall (.Variable "Foo") []) =
      Except.error (Errors.SyntaxFailure "Foo") ∧
    ∀ s, Errors.SyntaxFailure "Foo" ≠
      Errors.TypeMismatch (.UnrecognizedTypeName s) := by
  constructor
  · simp only [DataType.decipher_type, decode_model]
    unfold decode_model_function_call
    rfl
  · intro s h
    exact Errors.noConfusion h

/-- **C7.** `decipher_type` resolution: every bare identifier either
maps to a `DataType` or fails with `UnrecognizedTypeName`, and bare
identifiers outside the recognized table always fail with
`UnrecognizedTypeName(name)`; an unknown name in call position instead
fails with `Syntax(name)`.  Function literals map to `FunctionType`,
parameterized calls such as `String(80)` map to their sized types,
tuples map elementwise, and `Enum(A, B)` builds labeled parameters. -/
theorem decipher_type_resolution :
    (∀ name, (∃ dt, DataType.decipher_type (.Variable name) = Except.ok dt) ∨
        DataType.decipher_type (.Variable name) =
          Except.error (.TypeMismatch (.UnrecognizedTypeName name))) ∧
    (∀ name, name ∉ knownBareTypeNames →
        DataType.decipher_type (.Variable name) =
          Except.error (.TypeMismatch (.UnrecognizedTypeName name))) ∧
    (∀ name args, name ∉ knownCallTypeNames →
        DataType.decipher_type (.FunctionCall (.Variable name) args) =
          Except.error (.SyntaxFailure name)) ∧
    (∀ params body returns,
        DataType.decipher_type (.FnExpression params body returns) =
          Except.ok (.FunctionType params returns)) ∧
    DataType.decipher_type (.FunctionCall (.Variable "String")
        [.Literal (.Number (.I64Value 80))]) = Except.ok (.StringType 80) ∧
    DataType.decipher_type
        (.TupleExpression [.Variable "f64", .Variable "i64"]) =
      Except.ok (.TupleType [.NumberType .F64Kind, .NumberType .I64Kind]) ∧
    DataType.decipher_type (.FunctionCall (.Variable "Enum")
        [.Variable "A", .Variable "B"]) =
      Except.ok (.EnumType [Parameter.build "A", Parameter.build "B"]) := by
  refine ⟨?_, ?_, ?_, ?_, ?_, ?_, ?_⟩
  · intro name
    simp only [DataType.decipher_type, decode_model]
    unfold decode_model_variable
    split
    all_goals first
      | exact Or.inl ⟨_, rfl⟩
      | exact Or.inr rfl
  · intro name hname
    simp only [DataType.decipher_type, decode_model]
    unfold decode_model_variable
    split
    all_goals first
      | rfl
      | exact absurd (by decide) hname
  · intro name args hname
    simp only [DataType.decipher_type, decode_model]
    unfold decode_model_function_call
    split
    all_goals first
      | rfl
      | exact absurd (by decide) hname
  · intro params body returns
    simp only [DataType.decipher_type, decode_model]
    rfl
  · simp only [DataType.decipher_type, decode_model,
      decode_model_function_call, expect_size, Numbers.to_usize]
    rfl
  · simp only [DataType.decipher_type, decode_model, decode_model_tuple,
      decodeModelList, decode_model_variable, Except.map]
    rfl
  · simp only [DataType.decipher_type, decode_model,
      decode_model_function_call, expect_params, expect_params_loop,
      Except.map]
    rfl

theorem decipher_type_resolution_witness :
    ("Zed" ∉ knownBareTypeNames ∧
      DataType.decipher_type (.Variable "Zed") =
        Except.error (.TypeMismatch (.UnrecognizedTypeName "Zed"))) ∧
    ("Foo" ∉ knownCallTypeNames ∧
      DataType.decipher_type (.FunctionCall (.Variable "Foo")
          [.Variable "x"]) =
        Except.error (.SyntaxFailure "Foo")) :=
  ⟨⟨by decide, decipher_type_resolution.2.1 "Zed" (by decide)⟩,
   ⟨by decide, decipher_type_resolution.2.2.1 "Foo" [.Variable "x"]
      (by decide)⟩⟩

/-! ## `TokenSlice` scanning (token_slice.rs) -/

/-- Modelled from the spec: `tokens.rs` is absent from `src/`; spec
section 4.G lists the token classes.  `get_raw_value` returns the raw
text, `is_numeric` recognizes number tokens. -/
def Token.get_raw_value : Token → String
  | .atom text _ _ _ _ => text
  | .backticks text _ _ _ _ => text
  | .doubleQuoted text _ _ _ _ => text
  | .singleQuoted text _ _ _ _ => text
  | .numeric text _ _ _ _ => text
  | .operator text _ _ _ _ => text

/-- Modelled from the spec (see `Token.get_raw_value`). -/
def Token.is_numeric : Token → Bool
  | .numeric _ _ _ _ _ => true
  | _ => false

/-- `TokenSlice` (token_slice.rs:18-21): an immutable token sequence
with a signed cursor. -/
structure TokenSlice where
  tokens : List Token
  pos : Int
  deriving DecidableEq, Repr

/-- `TokenSlice::new` (token_slice.rs:29-31). -/
def TokenSlice.new (tokens : List Token) : TokenSlice := ⟨tokens, 0⟩

/-- `TokenSlice::copy` (token_slice.rs:61-63). -/
def TokenSlice.copy (ts : TokenSlice) (pos : Int) : TokenSlice :=
  ⟨ts.tokens, pos⟩

/-- `TokenSlice::len` (token_slice.rs:160). -/
def TokenSlice.len (ts : TokenSlice) : Nat := ts.tokens.length

/-- The scan loop shared by `scan_to` and `scan_until`
(token_slice.rs:191-192, 202-203): advance the cursor while it is in
range and the predicate rejects the token there. -/
def scanPosNat (f : Token → Bool) (tokens : List Token) (p : Nat) : Nat :=
  if h : p < tokens.length then
    if f (tokens.get ⟨p, h⟩) then p else scanPosNat f tokens (p + 1)
  else p
termination_by tokens.length - p

/-- `TokenSlice::scan_to` (token_slice.rs:190-196).  `none` models the
index panic the source hits when the cursor is negative (casting a
negative `isize` to `usize`). -/
def TokenSlice.scan_to (ts : TokenSlice) (f : Token → Bool) :
    Option (List Token × TokenSlice) :=
  if ts.pos < 0 then none
  else
    let pos : Int := (scanPosNat f ts.tokens ts.pos.toNat : Nat)
    if ts.pos < pos ∧ pos < (ts.tokens.length : Int) then
      some ((ts.tokens.drop ts.pos.toNat).take (pos.toNat - ts.pos.toNat),
        ts.copy pos)
    else some ([], ts)

/-- `TokenSlice::scan_until` (token_slice.rs:201-207): same loop, but
the returned prefix also includes the token at the final cursor
(`..=pos`). -/
def TokenSlice.scan_until (ts : TokenSlice) (f : Token → Bool) :
    Option (List Token × TokenSlice) :=
  if ts.pos < 0 then none
  else
    let pos : Int := (scanPosNat f ts.tokens ts.pos.toNat : Nat)
    if ts.pos < pos ∧ pos < (ts.tokens.length : Int) then
      some ((ts.tokens.drop ts.pos.toNat).take (pos.toNat + 1 - ts.pos.toNat),
        ts.copy pos)
    else some ([], ts)

theorem scanPosNat_of_match_here {f : Token → Bool} {tokens : List Token}
    {p : Nat} (h : p < tokens.length) (hf : f (tokens.get ⟨p, h⟩) = true) :
    scanPosNat f tokens p = p := by
  unfold scanPosNat
  rw [dif_pos h, if_pos hf]

theorem scanPosNat_of_no_match_here {f : Token → Bool} {tokens : List Token}
    {p : Nat} (h : p < tokens.length) (hf : f (tokens.get ⟨p, h⟩) = false) :
    scanPosNat f tokens p = scanPosNat f tokens (p + 1) := by
  conv_lhs => unfold scanPosNat
  rw [dif_pos h, if_neg (by rw [hf]; exact Bool.false_ne_true)]

theorem scanPosNat_of_oob {f : Token → Bool} {tokens : List Token}
    {p : Nat} (h : ¬p < tokens.length) :
    scanPosNat f tokens p = p := by
  unfold scanPosNat
  rw [dif_neg h]

/-- If the first accepted token at or after `p` sits at `m`, the scan
loop stops exactly at `m`. -/
theorem scanPosNat_eq_first (f : Token → Bool) (tokens : List Token)
    (m : Nat) (tok : Token) (hm : tokens.get? m = some tok)
    (hf : f tok = true) (p : Nat) (hpm : p ≤ m)
    (hbefore : ∀ i tok2, p ≤ i → i < m → tokens.get? i = some tok2 →
      f tok2 = false) :
    scanPosNat f tokens p = m := by
  have hmlen : m < tokens.length := List.get?_eq_some.mp hm |>.1
  rcases Nat.lt_or_ge p m with h | h
  · have hplen : p < tokens.length := lt_trans h hmlen
    have hget : tokens.get? p = some (tokens.get ⟨p, hplen⟩) :=
      List.get?_eq_get hplen
    have hfp : f (tokens.get ⟨p, hplen⟩) = false :=
      hbefore p _ (le_refl p) h hget
    rw [scanPosNat_of_no_match_here hplen hfp]
    exact scanPosNat_eq_first f tokens m tok hm hf (p + 1) h
      (fun i tok2 hpi him hgi => hbefore i tok2 (by omega) him hgi)
  · have hpm2 : p = m := le_antisymm hpm h
    subst hpm2
    have : tokens.get ⟨p, hmlen⟩ = tok := by
      have := List.get?_eq_get hmlen
      rw [this] at hm
      exact Option.some.inj hm
    exact scanPosNat_of_match_here hmlen (by rw [this]; exact hf)
termination_by m - p

/-- If no token at or after `p` is accepted, the scan loop runs to the
end of the token list (or stays put when already past it). -/
theorem scanPosNat_eq_max (f : Token → Bool) (tokens : List Token)
    (p : Nat)
    (hall : ∀ i tok, p ≤ i → tokens.get? i = some tok → f tok = false) :
    scanPosNat f tokens p = max p tokens.length := by
  by_cases h : p < tokens.length
  · have hget : tokens.get? p = some (tokens.get ⟨p, h⟩) :=
      List.get?_eq_get h
    have hfp : f (tokens.get ⟨p, h⟩) = false :=
      hall p _ (le_refl p) hget
    rw [scanPosNat_of_no_match_here h hfp]
    have := scanPosNat_eq_max f tokens (p + 1)
      (fun i tok hpi hgi => hall i tok (by omega) hgi)
    rw [this]
    omega
  · rw [scanPosNat_of_oob h]
    omega
termination_by tokens.length - p

/-- **C8 counterexample.** The claim says `scan_until` returns the
prefix including the matching token.  When the token at the *current*
position already matches, the guard `pos > self.pos` fails
(token_slice.rs:204-206) and `scan_until` returns an empty prefix with
the slice unchanged, not the one-token inclusive prefix. -/
theorem scan_until_current_match_counterexample :
    Token.is_numeric (.numeric "1" 0 1 1 1) = true ∧
    TokenSlice.scan_until (TokenSlice.new [.numeric "1" 0 1 1 1])
        Token.is_numeric =
      some ([], TokenSlice.new [.numeric "1" 0 1 1 1]) := by
  refine ⟨rfl, ?_⟩
  have h0 : scanPosNat Token.is_numeric [Token.numeric "1" 0 1 1 1] 0 = 0 :=
    scanPosNat_of_match_here (by decide) rfl
  simp [TokenSlice.scan_until, TokenSlice.new, h0]

/-- **C8.** Scanning behavior of `scan_to`/`scan_until` for a
non-negative cursor.  (1) If no token at or after the cursor satisfies
the predicate, both return an empty prefix and leave the slice
unchanged.  (2) If the token at the *current* position satisfies it,
both return an empty prefix and leave the slice unchanged — for
`scan_to` this coincides with the claimed exclusive-prefix behavior,
but for `scan_until` it contradicts the claimed inclusive prefix (see
the counterexample).  (3) If the first satisfying token sits strictly
after the cursor at index `m`, `scan_to` returns the exclusive prefix
with the slice positioned at `m`, and `scan_until` returns the
inclusive prefix with the slice positioned at `m`. -/
theorem scan_to_until_spec (ts : TokenSlice) (f : Token → Bool)
    (h0 : 0 ≤ ts.pos) :
    ((∀ i tok, ts.pos.toNat ≤ i → ts.tokens.get? i = some tok →
        f tok = false) →
      ts.scan_to f = some ([], ts) ∧ ts.scan_until f = some ([], ts)) ∧
    (∀ tok, ts.tokens.get? ts.pos.toNat = some tok → f tok = true →
      ts.scan_to f = some ([], ts) ∧ ts.scan_until f = some ([], ts)) ∧
    (∀ m tok, ts.pos.toNat < m → ts.tokens.get? m = some tok →
      f tok = true →
      (∀ i tok2, ts.pos.toNat ≤ i → i < m → ts.tokens.get? i = some tok2 →
        f tok2 = false) →
      ts.scan_to f =
        some ((ts.tokens.drop ts.pos.toNat).take (m - ts.pos.toNat),
          ts.copy m) ∧
      ts.scan_until f =
        some ((ts.tokens.drop ts.pos.toNat).take (m + 1 - ts.pos.toNat),
          ts.copy m)) := by
  have hpos0 : ¬ts.pos < 0 := not_lt.mpr h0
  refine ⟨?_, ?_, ?_⟩
  · intro hall
    have hm := scanPosNat_eq_max f ts.tokens ts.pos.toNat hall
    constructor
    · simp only [TokenSlice.scan_to, hm]
      rw [if_neg hpos0, if_neg (by omega)]
    · simp only [TokenSlice.scan_until, hm]
      rw [if_neg hpos0, if_neg (by omega)]
  · intro tok hget hf
    have hplen : ts.pos.toNat < ts.tokens.length :=
      (List.get?_eq_some.mp hget).1
    have htok : ts.tokens.get ⟨ts.pos.toNat, hplen⟩ = tok := by
      have := List.get?_eq_get hplen
      rw [this] at hget
      exact Option.some.inj hget
    have hm : scanPosNat f ts.tokens ts.pos.toNat = ts.pos.toNat :=
      scanPosNat_of_match_here hplen (by rw [htok]; exact hf)
    constructor
    · simp only [TokenSlice.scan_to, hm]
      rw [if_neg hpos0, if_neg (by omega)]
    · simp only [TokenSlice.scan_until, hm]
      rw [if_neg hpos0, if_neg (by omega)]
  · intro m tok hpm hget hf hbefore
    have hmlen : m < ts.tokens.length := (List.get?_eq_some.mp hget).1
    have hm : scanPosNat f ts.tokens ts.pos.toNat = m :=
      scanPosNat_eq_first f ts.tokens m tok hget hf ts.pos.toNat
        (le_of_lt hpm) hbefore
    constructor
    · simp only [TokenSlice.scan_to, hm]
      rw [if_neg hpos0, if_pos ⟨by omega, by omega⟩]
      simp [Int.toNat_natCast]
    · simp only [TokenSlice.scan_until, hm]
      rw [if_neg hpos0, if_pos ⟨by omega, by omega⟩]
      simp [Int.toNat_natCast]

theorem scan_to_until_spec_witness :
    (0 : Int) ≤ (TokenSlice.mk [Token.atom "a" 0 1 1 1,
        Token.numeric "7" 2 3 1 3] 0).pos ∧
    TokenSlice.scan_to (TokenSlice.mk [Token.atom "a" 0 1 1 1,
        Token.numeric "7" 2 3 1 3] 0) Token.is_numeric =
      some ([Token.atom "a" 0 1 1 1],
        TokenSlice.mk [Token.atom "a" 0 1 1 1,
          Token.numeric "7" 2 3 1 3] 1) ∧
    TokenSlice.scan_until (TokenSlice.mk [Token.atom "a" 0 1 1 1,
        Token.numeric "7" 2 3 1 3] 0) Token.is_numeric =
      some ([Token.atom "a" 0 1 1 1, Token.numeric "7" 2 3 1 3],
        TokenSlice.mk [Token.atom "a" 0 1 1 1,
          Token.numeric "7" 2 3 1 3] 1) := by
  have h := (scan_to_until_spec (TokenSlice.mk [Token.atom "a" 0 1 1 1,
      Token.numeric "7" 2 3 1 3] 0) Token.is_numeric (by decide)).2.2
    1 (Token.numeric "7" 2 3 1 3) (by decide) rfl rfl
    (by
      intro i tok2 h1 h2 hgi
      have hi : i = 0 := by omega
      subst hi
      have h3 : some (Token.atom "a" 0 1 1 1) = some tok2 := hgi
      rw [← Option.some.inj h3]
      rfl)
  exact ⟨by decide, h.1.trans (by rfl), h.2.trans (by rfl)⟩

end TinyDB
